import Mathlib

set_option linter.unusedSectionVars false

/-!
Verification development for the pop-squared geospatial aggregation engine.

The TypeScript source is shallowly embedded over an abstract linear ordered
field `α` (instantiated at `ℚ` for executable scenarios and at `ℝ` where a
scenario involves irrational distances).  JavaScript numbers are idealised as
exact field elements; `Math.round x` is modelled by Mathlib's `round`
(`⌊x + 1/2⌋`, which is exactly JavaScript's round-half-up on numbers),
`NaN` population values are modelled by an explicit `popNaN` flag (a `NaN`
fails `pop < 0` and is caught by `isNaN`, which the disjunctive filter below
reproduces), and the transcendental geodesy (haversine distance, `cos`-based
pixel areas, the bounding-box trigonometry, `Math.pow`) enters the model as
explicit function or value parameters, since no claim depends on the
analytic form of those functions.
-/

namespace PopSquared

variable {α : Type} [LinearOrderedField α]

/-- `Math.min` on comparable values, written out as its defining
conditional (kernel-reducible, unlike the lattice `min`). -/
def mathMin {β : Type} [LinearOrder β] (a b : β) : β := if a ≤ b then a else b

/-- `Math.max`, likewise. -/
def mathMax {β : Type} [LinearOrder β] (a b : β) : β := if a ≤ b then b else a

/-! ## Band partitioner — `src/lib/rings.ts` -/

/-- Adaptive step policy from `generateRingBoundaries` in `src/lib/rings.ts`:
step 1 below 10, step 2 below 25, step 5 thereafter. -/
def ringStep (current : α) : α :=
  if current < 10 then 1 else if current < 25 then 2 else 5

/-- The `while (current < radiusKm)` loop of `generateRingBoundaries`,
embedded with an explicit fuel argument.  Each iteration advances `current`
by at least 1 (or snaps to `radiusKm`), so `⌈radiusKm⌉ + 1` fuel is enough;
`ringLoopF_complete` proves the fuel never runs out for the wrapper below. -/
def ringLoopF : ℕ → α → α → List α
  | 0, _, _ => []
  | fuel + 1, radiusKm, current =>
    if current < radiusKm then
      let next := mathMin (current + ringStep current) radiusKm
      next :: ringLoopF fuel radiusKm next
    else []

/-- `generateRingBoundaries` from `src/lib/rings.ts`: boundaries start at 0,
the loop appends clamped steps, and a final boundary at `radiusKm` is pushed
if the last generated one differs from it. -/
def generateRingBoundaries [FloorRing α] (radiusKm : α) : List α :=
  let boundaries : List α := 0 :: ringLoopF (⌈radiusKm⌉.toNat + 1) radiusKm 0
  if boundaries.getLastD 0 ≠ radiusKm then boundaries ++ [radiusKm] else boundaries

/-! ## Spatial gravity accumulator — `computePopulation` in `src/lib/population.ts`

The per-pixel loop of `computePopulation` is embedded as a fold over a list
of samples.  A `PixelSample` carries what the loop reads for one pixel: its
haversine distance from the query centre, its raster value (`pop`, with a
flag marking `NaN` nodata), and its approximate area `areaKm2` (computed in
the source from `cos(pixelLat)`; carried as a precomputed field because the
cosine has no rational form, and no claim depends on it). -/

/-- One pixel as seen by the accumulation loop.  `dist` is the precomputed
`haversineDistance(lat, lng, pixelLat, pixelLng)`. -/
structure PixelSample (α : Type) where
  dist : α
  pop : α
  area : α
  popNaN : Bool

/-- `MIN_DISTANCE_KM = 0.1` from `src/lib/population.ts`. -/
def MIN_DISTANCE_KM : α := 1 / 10

/-- The linear ring scan `for (r = 0; r < ringCount; r++) if (dist >= ringBounds[r]
&& dist < ringBounds[r+1]) { ringIdx = r; break; }`, compiled to a first-match
scan over the list of consecutive boundary pairs. -/
def scanPairs (d : α) : List (α × α) → Option ℕ
  | [] => none
  | (lo, hi) :: rest => if lo ≤ d ∧ d < hi then some 0 else (scanPairs d rest).map (· + 1)

/-- The ring index chosen by `computePopulation` for a pixel at distance `d`:
the linear scan above, then the edge-case branch
`if (ringIdx === -1 && dist <= radiusKm) ringIdx = ringCount - 1`
(where `ringCount = ringBounds.length - 1`), else `-1`. -/
def ringIdxFor (ringBounds : List α) (radiusKm d : α) : ℤ :=
  match scanPairs d (ringBounds.zip ringBounds.tail) with
  | some r => (r : ℤ)
  | none => if d ≤ radiusKm then ((ringBounds.length : ℤ) - 1) - 1 else -1

/-- The mutable accumulators of `computePopulation`: the running totals and
the per-ring `Float64Array`s. -/
structure AccState (α : Type) where
  totalPop : α
  invSqSum : α
  weightSum : α
  pixels : ℕ
  ringPop : List α
  ringInvSq : List α
  ringArea : List α

/-- One iteration of the pixel loop of `computePopulation`: skip pixels
beyond the radius, skip nodata (`pop < 0 || isNaN(pop)`), accumulate the
totals, then accumulate into the owning ring when the ring index is
non-negative.  The weight is literally `1 / (r * r)` with
`r = max(dist, MIN_DISTANCE_KM)` — the source never consults the query's
`exponent`. -/
def processPixel (ringBounds : List α) (radiusKm : α) (st : AccState α)
    (s : PixelSample α) : AccState α :=
  if s.dist > radiusKm then st
  else if s.pop < 0 ∨ s.popNaN = true then st
  else
    let st1 : AccState α :=
      { st with pixels := st.pixels + 1, totalPop := st.totalPop + s.pop }
    let ridx : ℤ := ringIdxFor ringBounds radiusKm s.dist
    if 0 ≤ ridx then
      let i := ridx.toNat
      let r := mathMax s.dist MIN_DISTANCE_KM
      let weight := 1 / (r * r)
      { st1 with
        ringPop := st1.ringPop.set i (st1.ringPop.getD i 0 + s.pop)
        ringInvSq := st1.ringInvSq.set i (st1.ringInvSq.getD i 0 + s.pop * weight)
        ringArea := st1.ringArea.set i (st1.ringArea.getD i 0 + s.area)
        invSqSum := st1.invSqSum + s.pop * weight
        weightSum := st1.weightSum + weight }
    else st1

/-- The zero-initialised accumulators (`new Float64Array(ringCount)` etc.). -/
def initAccState (ringCount : ℕ) : AccState α :=
  ⟨0, 0, 0, 0, List.replicate ringCount 0, List.replicate ringCount 0,
    List.replicate ringCount 0⟩

/-- The whole accumulation pass of `computePopulation` over a sample list. -/
def accumulatePixels (ringBounds : List α) (radiusKm : α)
    (samples : List (PixelSample α)) : AccState α :=
  samples.foldl (processPixel ringBounds radiusKm)
    (initAccState (ringBounds.length - 1))

/-- One entry of the returned `rings` array (`RingResult` in
`src/lib/types.ts`); integer fields are the `Math.round`ed displays. -/
structure RingResult (α : Type) where
  innerKm : α
  outerKm : α
  population : ℤ
  inverseSqContribution : α
  areaSqKm : α
  density : ℤ

/-- The ring-result construction loop of `computePopulation`, including the
`ringArea[r] || 1` fallback and the display rounding. -/
def buildRings [FloorRing α] (ringBounds : List α) (st : AccState α) :
    List (RingResult α) :=
  (List.range (ringBounds.length - 1)).map fun r =>
    let area := if st.ringArea.getD r 0 = 0 then 1 else st.ringArea.getD r 0
    { innerKm := ringBounds.getD r 0
      outerKm := ringBounds.getD (r + 1) 0
      population := round (st.ringPop.getD r 0)
      inverseSqContribution := (round (st.ringInvSq.getD r 0 * 100) : α) / 100
      areaSqKm := (round (area * 10) : α) / 10
      density := round (st.ringPop.getD r 0 / area) }

/-- The returned `PopulationResult` (timing, echo of the query centre and
radius omitted: wall-clock time is outside the model). -/
structure PopulationResult (α : Type) where
  totalPopulation : ℤ
  inverseSqSum : α
  inverseSqNormalized : α
  rings : List (RingResult α)
  pixelsProcessed : ℕ

/-- The final result assembly of `computePopulation` from the accumulators:
display rounding and the `inverseSqWeightSum > 0 ? ... : 0` guard. -/
def buildPopulationResult [FloorRing α] (ringBounds : List α) (st : AccState α) :
    PopulationResult α :=
  { totalPopulation := round st.totalPop
    inverseSqSum := (round (st.invSqSum * 100) : α) / 100
    inverseSqNormalized :=
      if 0 < st.weightSum then (round ((st.invSqSum / st.weightSum) * 100) : α) / 100
      else 0
    rings := buildRings ringBounds st
    pixelsProcessed := st.pixels }

/-! ## Window extraction — the pixel-window arithmetic of `computePopulation`

The geographic bounding box arrives as a parameter (in the source it is
`boundingBox(lat, lng, radiusKm)`, whose trigonometry is outside the
rational model), and the raster geometry mirrors `image.getOrigin()`,
`image.getResolution()`, `getWidth()`, `getHeight()`. -/

/-- Origin, resolution and size of the opened raster. -/
structure RasterGeom where
  originX : ℚ
  originY : ℚ
  resX : ℚ
  resY : ℚ
  width : ℕ
  height : ℕ

/-- The pixel-window computation of `computePopulation` (`col0`, `col1`,
`row0`, `row1`): floor/ceil conversion of the box corners then clamping to
the raster extent. -/
def pixelWindow (g : RasterGeom) (minLng minLat maxLng maxLat : ℚ) :
    ℤ × ℤ × ℤ × ℤ :=
  (mathMax 0 ⌊(minLng - g.originX) / g.resX⌋,
   mathMin ((g.width : ℤ) - 1) ⌈(maxLng - g.originX) / g.resX⌉,
   mathMax 0 ⌊(maxLat - g.originY) / g.resY⌋,
   mathMin ((g.height : ℤ) - 1) ⌈(minLat - g.originY) / g.resY⌉)

/-- The nested `for (row = row0; row <= row1; row++) for (col = col0; col <=
col1; col++)` iteration, produced as the row-major list of samples the loop
body reads.  `dist` abstracts `haversineDistance` at the pixel centre and
`data` abstracts the raster buffer returned by `readRasters` (indexed here
by `(row, col)` instead of `(row - row0) * readWidth + (col - col0)`, which
is the same pixel). -/
def windowSamples (g : RasterGeom) (dist : ℚ → ℚ → ℚ) (data : ℤ → ℤ → ℚ × Bool)
    (w : ℤ × ℤ × ℤ × ℤ) : List (PixelSample ℚ) :=
  let col0 := w.1
  let col1 := w.2.1
  let row0 := w.2.2.1
  let row1 := w.2.2.2
  (List.range (row1 + 1 - row0).toNat).flatMap fun ri =>
    (List.range (col1 + 1 - col0).toNat).map fun ci =>
      let row := row0 + (ri : ℤ)
      let col := col0 + (ci : ℤ)
      let pixelLat := g.originY + ((row : ℚ) + 1 / 2) * g.resY
      let pixelLng := g.originX + ((col : ℚ) + 1 / 2) * g.resX
      let v := data row col
      ⟨dist pixelLat pixelLng, v.1, 0, v.2⟩

/-- The failure mode of the raster read: the geotiff library's `readRasters`
rejects a window whose first corner lies past the second. -/
inductive ReadError where
  | invalidSubsets
deriving DecidableEq

/-- `computePopulation` end to end over the rational model: window, raster
read, ring boundaries, accumulation, result assembly.  The read models the
geotiff dependency's `readRasters` contract: the source passes
`window = [col0, row0, col1 + 1, row1 + 1]` and the library throws
`Invalid subsets` when `window[0] > window[2]` or `window[1] > window[3]`
(an inverted window, which the clamping produces for query boxes lying more
than one pixel beyond the raster's edge); that rejection propagates out of
`computePopulation`.  A zero-size but non-inverted window reads an empty
buffer and the pixel loops run zero iterations. -/
def computePopulationModel (g : RasterGeom) (dist : ℚ → ℚ → ℚ)
    (data : ℤ → ℤ → ℚ × Bool) (minLng minLat maxLng maxLat radiusKm : ℚ) :
    Except ReadError (PopulationResult ℚ) :=
  let w := pixelWindow g minLng minLat maxLng maxLat
  if w.1 > w.2.1 + 1 ∨ w.2.2.1 > w.2.2.2 + 1 then .error .invalidSubsets
  else
    let ringBounds := generateRingBoundaries radiusKm
    .ok (buildPopulationResult ringBounds
      (accumulatePixels ringBounds radiusKm (windowSamples g dist data w)))

/-! ## Travel-time cell filter — the `results` memo of
`src/hooks/useTravelTimeData.ts` -/

/-- Transport mode selector. -/
inductive TransportMode where
  | driving
  | transit
  | fastest
deriving DecidableEq

/-- One precomputed travel-time cell (`TravelTimeCell`): location,
population, and nullable per-mode times in seconds. -/
structure TTCell (α : Type) where
  lat : α
  lng : α
  pop : α
  driving : Option α
  transit : Option α

/-- `getTravelTime` from `useTravelTimeData.ts`: mode projection, with
`fastest` taking the min of both when present, otherwise
`cell.driving ?? cell.transit`. -/
def getTravelTime (cell : TTCell α) (mode : TransportMode) : Option α :=
  match mode with
  | .driving => cell.driving
  | .transit => cell.transit
  | .fastest =>
    match cell.driving, cell.transit with
    | some d, some t => some (mathMin d t)
    | some d, none => some d
    | none, t => t

/-- `TIME_BAND_RANGES` from `useTravelTimeData.ts` (minutes). -/
def TIME_BAND_RANGES : List (α × α) :=
  [(0, 15), (15, 30), (30, 45), (45, 60), (60, 90), (90, 120), (120, 180)]

/-- One display band (`TimeBand`). -/
structure TimeBand (α : Type) where
  minMin : α
  maxMin : α
  population : α
  weightedContribution : α
  cellCount : ℕ

/-- The zero-initialised band list built from `TIME_BAND_RANGES`. -/
def initTimeBands : List (TimeBand α) :=
  TIME_BAND_RANGES.map fun p => ⟨p.1, p.2, 0, 0, 0⟩

/-- `MIN_TIME_SEC = 60` from `useTravelTimeData.ts`. -/
def MIN_TIME_SEC : α := 60

/-- The accumulators of the first pass of the memo: the `filteredCells`
array (each pushed entry is `{...cell, time, weight: contribution}` — the
stored `weight` field is the population-weighted contribution), plus
`rawSum`, `weightSum`, `totalPopulation`. -/
structure TTAcc (α : Type) where
  filtered : List (TTCell α × α × α)
  rawSum : α
  weightSum : α
  totalPopulation : α

/-- One iteration of the filter loop: drop unreachable or over-limit cells,
clamp the time to `MIN_TIME_SEC`, weight by `1 / Math.pow(t, exponent)`
(`pow` abstracts `Math.pow`), and accumulate.  Note there is no population
filter here. -/
def ttProcessCell (pow : α → α → α) (mode : TransportMode)
    (exponent maxTimeSec : α) (st : TTAcc α) (cell : TTCell α) : TTAcc α :=
  match getTravelTime cell mode with
  | none => st
  | some time =>
    if time > maxTimeSec then st
    else
      let t := mathMax time MIN_TIME_SEC
      let weight := 1 / pow t exponent
      let contribution := cell.pop * weight
      { filtered := st.filtered ++ [(cell, time, contribution)]
        rawSum := st.rawSum + contribution
        weightSum := st.weightSum + weight
        totalPopulation := st.totalPopulation + cell.pop }

/-- The whole first pass (`for (const cell of data.cells) ...`), with
`maxTimeSec = maxTimeMin * 60`. -/
def ttFilterPass (pow : α → α → α) (mode : TransportMode)
    (exponent maxTimeMin : α) (cells : List (TTCell α)) : TTAcc α :=
  cells.foldl (ttProcessCell pow mode exponent (maxTimeMin * 60)) ⟨[], 0, 0, 0⟩

/-- The band lookup of the second pass: the first band with
`timeMin >= band.minMin && timeMin < band.maxMin`, or none.  There is no
closed-interval exception for the last band in this loop. -/
def ttBandFor (timeMin : α) : Option ℕ :=
  scanPairs timeMin TIME_BAND_RANGES

/-- The second pass (`for (const cell of filteredCells) ... break`):
increment the first matching band, or none. -/
def ttApplyBands (bands : List (TimeBand α))
    (filtered : List (TTCell α × α × α)) : List (TimeBand α) :=
  filtered.foldl
    (fun (bands : List (TimeBand α)) (e : TTCell α × α × α) =>
      match ttBandFor (e.2.1 / 60) with
      | some i =>
        let b := bands.getD i ⟨0, 0, 0, 0, 0⟩
        bands.set i
          { b with
            population := b.population + e.1.pop
            weightedContribution := b.weightedContribution + e.2.2
            cellCount := b.cellCount + 1 }
      | none => bands)
    bands

/-- The reported part of `ComputedResults` (the three coverage percentages
are omitted: they require haversine distances and no claim mentions them). -/
structure TTResults (α : Type) where
  totalReachable : ℕ
  totalPopulation : α
  rawSum : α
  normalized : α
  timeBands : List (TimeBand α)

/-- The memo end to end: filter pass, band pass, and the returned record
with its display rounding and `weightSum > 0` guard. -/
def computeResults [FloorRing α] (pow : α → α → α) (mode : TransportMode)
    (exponent maxTimeMin : α) (cells : List (TTCell α)) : TTResults α :=
  let st := ttFilterPass pow mode exponent maxTimeMin cells
  let bands := ttApplyBands initTimeBands st.filtered
  { totalReachable := st.filtered.length
    totalPopulation := st.totalPopulation
    rawSum := (round (st.rawSum * 100) : α) / 100
    normalized :=
      if 0 < st.weightSum then (round ((st.rawSum / st.weightSum) * 100) : α) / 100
      else 0
    timeBands := bands }

/-- `Math.pow` restricted to the natural-number exponents exercised by the
concrete rational scenarios below (they use exponent 1); agrees with real
exponentiation there. -/
def qpow (a b : ℚ) : ℚ := a ^ b.num.toNat

/-- `Math.pow` idealised as real exponentiation, for statements that range
over arbitrary exponents in [0.1, 3]. -/
noncomputable def rpowFn : ℝ → ℝ → ℝ := fun a b => a ^ b

/-! ## Raster access layer — `src/lib/geo.ts`

`getImage` and `readRastersExclusive` are async; their states between
suspension points are modelled explicitly.  JavaScript is single-threaded,
so each synchronous section of `getImage` (in particular the
check-then-assign on `cachedImage` / `imagePromise`) runs atomically; a
step of the machine below is one such section, and decode completion
(resolution or rejection of `imagePromise`, which runs the starter's
`try`/`catch` continuation) is its own step. -/

/-- The module-level mutable state of `geo.ts`: `cachedImage`,
`imagePromise` (in-flight decodes are named by numeric ids), and a counter
providing fresh ids. -/
structure RasterState where
  cached : Option ℕ
  inflight : Option ℕ
  nextOp : ℕ

/-- What one `getImage()` call does in its first synchronous section. -/
inductive AcquireOutcome where
  | hit (handle : ℕ)
  | awaiting (op : ℕ)
  | started (op : ℕ)
deriving DecidableEq

/-- The synchronous prefix of `getImage`: `if (cachedImage) return cachedImage;
if (imagePromise) return imagePromise; imagePromise = openImage(); ...`. -/
def acquireStep (s : RasterState) : RasterState × AcquireOutcome :=
  match s.cached with
  | some h => (s, .hit h)
  | none =>
    match s.inflight with
    | some p => (s, .awaiting p)
    | none =>
      ({ s with inflight := some s.nextOp, nextOp := s.nextOp + 1 },
       .started s.nextOp)

/-- Resolution of the in-flight decode: the starter's
`cachedImage = await imagePromise` runs (`imagePromise` is left set). -/
def resolveStep (s : RasterState) (handle : ℕ) : RasterState :=
  { s with cached := some handle }

/-- Rejection of the in-flight decode: the starter's `catch` runs
`imagePromise = null` so a later call may retry; `cachedImage` is not
touched. -/
def rejectStep (s : RasterState) : RasterState :=
  { s with inflight := none }

/-! ### `readRastersExclusive` — the FIFO read queue

A settled promise is abstracted as its settling time and outcome; the time
a queued read takes is supplied by an oracle (`ReadReq.dur`), as is whether
the underlying `readRasters` call fails (`ReadReq.fails`). -/

/-- Oracle for one queued `readWindow` call. -/
structure ReadReq where
  dur : ℕ
  fails : Bool

/-- Outcome of a settled promise. -/
inductive POut where
  | ok
  | err
deriving DecidableEq

/-- A settled promise: when it settled, and how. -/
structure SettledP where
  time : ℕ
  out : POut

/-- `p.then(task)` with only an on-fulfilled handler: if `p` fulfils, the
task starts at `p.time` and settles `dur` later with its own outcome; if
`p` rejects, the task never runs and the rejection propagates. -/
def promiseThen (p : SettledP) (dur : ℕ) (out : POut) : SettledP :=
  match p.out with
  | .ok => ⟨p.time + dur, out⟩
  | .err => p

/-- `result.then(() => {}, () => {})` — the queue-tail update of
`readRastersExclusive`: settles fulfilled when `result` settles, whatever
its outcome (rejections are swallowed so the queue keeps moving). -/
def swallowErr (p : SettledP) : SettledP := ⟨p.time, .ok⟩

/-- One physical read as observed: when it began, when it settled, how. -/
structure ReadEvt where
  start : ℕ
  settle : ℕ
  out : POut
deriving DecidableEq

/-- A sequence of `readRastersExclusive` calls against the queue `queue`:
each call chains its read onto the tail (`result = readQueue.then(...)`)
and replaces the tail with the rejection-swallowing follower
(`readQueue = result.then(() => {}, () => {})`). -/
def runReadQueue (queue : SettledP) : List ReadReq → List ReadEvt
  | [] => []
  | r :: rs =>
    let result := promiseThen queue r.dur (if r.fails then .err else .ok)
    ⟨queue.time, result.time, result.out⟩ :: runReadQueue (swallowErr result) rs

/-- The module-level queue starts as `Promise.resolve()`. -/
def readRastersExclusiveModel (reqs : List ReadReq) : List ReadEvt :=
  runReadQueue ⟨0, .ok⟩ reqs

/-! ## The synthetic 5×5 grid scenario (spec §8, scenario 1)

A 5×5 grid with unit pixels, query at the centre cell, radius 2: the
centre cell holds population 100, every other cell 0.  Distances between
cell centres are Euclidean, so the off-centre distances are
`1, √2, 2, √5, √8`; the grid is listed row-major. -/

/-- A synthetic grid cell at distance `d` with population `p` (no nodata,
area not modelled). -/
noncomputable def gridCell (d p : ℝ) : PixelSample ℝ := ⟨d, p, 0, false⟩

/-- The 25 samples of the synthetic grid, row-major. -/
noncomputable def syntheticGrid : List (PixelSample ℝ) :=
  [gridCell (Real.sqrt 8) 0, gridCell (Real.sqrt 5) 0, gridCell 2 0,
     gridCell (Real.sqrt 5) 0, gridCell (Real.sqrt 8) 0,
   gridCell (Real.sqrt 5) 0, gridCell (Real.sqrt 2) 0, gridCell 1 0,
     gridCell (Real.sqrt 2) 0, gridCell (Real.sqrt 5) 0,
   gridCell 2 0, gridCell 1 0, gridCell 0 100, gridCell 1 0, gridCell 2 0,
   gridCell (Real.sqrt 5) 0, gridCell (Real.sqrt 2) 0, gridCell 1 0,
     gridCell (Real.sqrt 2) 0, gridCell (Real.sqrt 5) 0,
   gridCell (Real.sqrt 8) 0, gridCell (Real.sqrt 5) 0, gridCell 2 0,
     gridCell (Real.sqrt 5) 0, gridCell (Real.sqrt 8) 0]

/-! ## Ring boundary lemmas -/

lemma mathMin_eq {β : Type} [LinearOrder β] (a b : β) : mathMin a b = min a b :=
  (min_def a b).symm

lemma mathMax_eq {β : Type} [LinearOrder β] (a b : β) : mathMax a b = max a b :=
  (max_def a b).symm

lemma ringStep_one_le (current : α) : 1 ≤ ringStep current := by
  unfold ringStep
  split
  · norm_num
  · split <;> norm_num

lemma ringLoopF_of_not_lt {fuel : ℕ} {radiusKm current : α} (h : ¬ current < radiusKm) :
    ringLoopF fuel radiusKm current = [] := by
  cases fuel <;> simp [ringLoopF, h]

/-- If `l` is nonempty, `getLastD` does not depend on the default. -/
lemma getLastD_congr {β : Type} (l : List β) (a b : β) (h : l ≠ []) :
    l.getLastD a = l.getLastD b := by
  rw [List.getLastD_eq_getLast?, List.getLastD_eq_getLast?]
  cases hl : l.getLast? with
  | none => exact absurd (List.getLast?_eq_none_iff.mp hl) h
  | some z => rfl

/-- Fuel sufficiency and correctness of the ring loop: starting strictly
below the radius with at least `⌈radiusKm - current⌉` fuel, the produced
boundaries strictly increase from `current` and end exactly at `radiusKm`. -/
lemma ringLoopF_complete [FloorRing α] :
    ∀ (fuel : ℕ) (radiusKm current : α), current < radiusKm →
      (⌈radiusKm - current⌉).toNat ≤ fuel →
      ringLoopF fuel radiusKm current ≠ [] ∧
      List.Chain' (· < ·) (current :: ringLoopF fuel radiusKm current) ∧
      (ringLoopF fuel radiusKm current).getLastD 0 = radiusKm := by
  intro fuel
  induction fuel with
  | zero =>
    intro radiusKm current hlt hfuel
    exfalso
    have hpos : (0 : ℤ) < ⌈radiusKm - current⌉ := by
      rw [Int.ceil_pos]; linarith
    omega
  | succ fuel ih =>
    intro radiusKm current hlt hfuel
    have hstep : (1 : α) ≤ ringStep current := ringStep_one_le current
    have hnext_gt : current < mathMin (current + ringStep current) radiusKm := by
      rw [mathMin_eq]; exact lt_min (by linarith) hlt
    by_cases hsnap : current + ringStep current < radiusKm
    · -- the step does not reach the radius: recurse
      have hmin : mathMin (current + ringStep current) radiusKm =
          current + ringStep current := by
        rw [mathMin_eq]; exact min_eq_left (le_of_lt hsnap)
      have hfuel' : (⌈radiusKm - (current + ringStep current)⌉).toNat ≤ fuel := by
        have h1 : radiusKm - (current + ringStep current) ≤ (radiusKm - current) - 1 := by
          linarith
        have h2 : ⌈radiusKm - (current + ringStep current)⌉ ≤ ⌈(radiusKm - current) - 1⌉ :=
          Int.ceil_le_ceil h1
        have h3 : ⌈(radiusKm - current) - (1 : α)⌉ = ⌈radiusKm - current⌉ - 1 := by
          exact_mod_cast Int.ceil_sub_int (radiusKm - current) 1
        omega
      obtain ⟨hne, hchain, hlast⟩ := ih radiusKm (current + ringStep current) hsnap hfuel'
      refine ⟨?_, ?_, ?_⟩
      · simp [ringLoopF, hlt, hmin]
      · have hcn : current < current + ringStep current := by linarith
        simp only [ringLoopF, if_pos hlt, hmin]
        exact hchain.cons hcn
      · simp only [ringLoopF, if_pos hlt, hmin, List.getLastD_cons]
        rw [getLastD_congr _ _ 0 hne]
        exact hlast
    · -- the step snaps to the radius and the loop terminates
      have hmin : mathMin (current + ringStep current) radiusKm = radiusKm := by
        rw [mathMin_eq]; exact min_eq_right (not_lt.mp hsnap)
      have hstop : ringLoopF fuel radiusKm radiusKm = [] :=
        ringLoopF_of_not_lt (lt_irrefl radiusKm)
      refine ⟨?_, ?_, ?_⟩
      · simp [ringLoopF, hlt, hmin, hstop]
      · simp [ringLoopF, hlt, hmin, hstop, List.chain'_cons, hnext_gt.trans_eq hmin]
      · simp [ringLoopF, hlt, hmin, hstop]

/-- For a positive radius the final duplicate-avoidance push never fires,
and the boundary list is the strictly increasing `0 :: loop`, ending at the
radius. -/
lemma generateRingBoundaries_spec [FloorRing α] (radiusKm : α) (h : 0 < radiusKm) :
    generateRingBoundaries radiusKm =
        0 :: ringLoopF (⌈radiusKm⌉.toNat + 1) radiusKm 0 ∧
      List.Chain' (· < ·) (generateRingBoundaries radiusKm) ∧
      (generateRingBoundaries radiusKm).head? = some 0 ∧
      (generateRingBoundaries radiusKm).getLast? = some radiusKm ∧
      2 ≤ (generateRingBoundaries radiusKm).length := by
  have hfuel : (⌈radiusKm - (0 : α)⌉).toNat ≤ ⌈radiusKm⌉.toNat + 1 := by
    rw [sub_zero]; omega
  obtain ⟨hne, hchain, hlast⟩ :=
    ringLoopF_complete (⌈radiusKm⌉.toNat + 1) radiusKm 0 h hfuel
  set l := ringLoopF (⌈radiusKm⌉.toNat + 1) radiusKm (0 : α) with hl
  have hlastD : (0 :: l).getLastD 0 = radiusKm := by
    rw [List.getLastD_cons]
    exact (getLastD_congr l 0 0 hne).trans hlast
  have hgen : generateRingBoundaries radiusKm = 0 :: l := by
    simp only [generateRingBoundaries, ← hl]
    rw [if_neg (not_ne_iff.mpr hlastD)]
  have hlast? : (0 :: l).getLast? = some radiusKm := by
    have h1 := hlastD
    rw [List.getLastD_eq_getLast?] at h1
    cases hq : (0 :: l).getLast? with
    | none => exact absurd (List.getLast?_eq_none_iff.mp hq) (by simp)
    | some z =>
      rw [hq] at h1
      simp only [Option.getD_some] at h1
      rw [h1]
  refine ⟨hgen, ?_, ?_, ?_, ?_⟩
  · rw [hgen]; exact hchain
  · rw [hgen]; rfl
  · rw [hgen]; exact hlast?
  · rw [hgen]
    obtain ⟨x, xs, hxxs⟩ := List.exists_cons_of_ne_nil hne
    rw [hxxs]
    simp

/-- Claim C4: for every positive limit, the adaptive partitioner returns a
boundary list that starts at 0, strictly increases, ends exactly at the
limit, and yields one band fewer than it has boundaries (the ring-result
list built on it has length `boundaries.length - 1`). -/
theorem C4_partition_boundaries [FloorRing α] (radiusKm : α) (h : 0 < radiusKm) :
    (generateRingBoundaries radiusKm).head? = some 0 ∧
      List.Chain' (· < ·) (generateRingBoundaries radiusKm) ∧
      (generateRingBoundaries radiusKm).getLast? = some radiusKm ∧
      ∀ st : AccState α,
        (buildRings (generateRingBoundaries radiusKm) st).length =
          (generateRingBoundaries radiusKm).length - 1 := by
  obtain ⟨-, hchain, hhead, hlast, -⟩ := generateRingBoundaries_spec radiusKm h
  exact ⟨hhead, hchain, hlast, fun st => by simp [buildRings]⟩

/-- Witness for C4 at the rational radius `7/2`. -/
theorem C4_partition_boundaries_witness :
    (0 : ℚ) < 7 / 2 ∧
      ((generateRingBoundaries (7 / 2 : ℚ)).head? = some 0 ∧
        List.Chain' (· < ·) (generateRingBoundaries (7 / 2 : ℚ)) ∧
        (generateRingBoundaries (7 / 2 : ℚ)).getLast? = some (7 / 2) ∧
        ∀ st : AccState ℚ,
          (buildRings (generateRingBoundaries (7 / 2 : ℚ)) st).length =
            (generateRingBoundaries (7 / 2 : ℚ)).length - 1) :=
  ⟨by norm_num, C4_partition_boundaries (7 / 2 : ℚ) (by norm_num)⟩

/-- Claim C5, counterexample: partitioning with limit 32 does **not** give
the spec's list `[.., 22, 24, 29, 32]` — at 24 the current boundary is
still below 25, so the step is 2, not 5. -/
theorem C5_counterexample :
    generateRingBoundaries (32 : ℚ) ≠
      [0, 1, 2, 3, 4, 5, 6, 7, 8, 9, 10, 12, 14, 16, 18, 20, 22, 24, 29, 32] := by
  norm_num [generateRingBoundaries, ringLoopF, ringStep, mathMin]

/-- Claim C5, amended: the adaptive policy at limit 32 yields
`[0,…,10, 12,…,24, 26, 31, 32]` — after 24 it still steps by 2 (to 26),
then by 5 (to 31), then clamps to 32. -/
theorem C5_amended :
    generateRingBoundaries (32 : ℚ) =
      [0, 1, 2, 3, 4, 5, 6, 7, 8, 9, 10, 12, 14, 16, 18, 20, 22, 24, 26, 31, 32] := by
  norm_num [generateRingBoundaries, ringLoopF, ringStep, mathMin]

/-! ## Band scan lemmas -/

lemma scanPairs_some_spec (d : α) :
    ∀ (pairs : List (α × α)) (i : ℕ), scanPairs d pairs = some i →
      i < pairs.length ∧ (pairs.getD i (0, 0)).1 ≤ d ∧ d < (pairs.getD i (0, 0)).2 := by
  intro pairs
  induction pairs with
  | nil => intro i h; simp [scanPairs] at h
  | cons p rest ih =>
    intro i h
    obtain ⟨lo, hi⟩ := p
    by_cases hc : lo ≤ d ∧ d < hi
    · simp [scanPairs, hc] at h
      subst h
      simpa using hc
    · simp [scanPairs, hc] at h
      obtain ⟨j, hj, rfl⟩ := h
      obtain ⟨h1, h2, h3⟩ := ih j hj
      exact ⟨by simpa using h1, by simpa using h2, by simpa using h3⟩

lemma scanPairs_none_of (d : α) :
    ∀ pairs : List (α × α),
      (∀ i, i < pairs.length →
        ¬((pairs.getD i (0, 0)).1 ≤ d ∧ d < (pairs.getD i (0, 0)).2)) →
      scanPairs d pairs = none := by
  intro pairs
  induction pairs with
  | nil => intro _; rfl
  | cons p rest ih =>
    intro h
    obtain ⟨lo, hi⟩ := p
    have h0 := h 0 (by simp)
    simp only [List.getD_cons_zero] at h0
    have hrest : scanPairs d rest = none := by
      apply ih
      intro i hi'
      have := h (i + 1) (by simpa using hi')
      simpa using this
    simp [scanPairs, h0, hrest]

lemma scanPairs_isSome_of_exists (d : α) :
    ∀ pairs : List (α × α),
      (∃ i, i < pairs.length ∧
        (pairs.getD i (0, 0)).1 ≤ d ∧ d < (pairs.getD i (0, 0)).2) →
      ∃ j, scanPairs d pairs = some j := by
  intro pairs
  induction pairs with
  | nil => rintro ⟨i, hi, -⟩; simp at hi
  | cons p rest ih =>
    rintro ⟨i, hi, h1, h2⟩
    obtain ⟨lo, hi'⟩ := p
    by_cases hc : lo ≤ d ∧ d < hi'
    · exact ⟨0, by simp [scanPairs, hc]⟩
    · cases i with
      | zero => simp at h1 h2; exact absurd ⟨h1, h2⟩ hc
      | succ i =>
        obtain ⟨j, hj⟩ := ih ⟨i, by simpa using hi, by simpa using h1, by simpa using h2⟩
        exact ⟨j + 1, by simp [scanPairs, hc, hj]⟩

/-- Indexing into `bs.zip bs.tail` picks consecutive boundary pairs. -/
lemma zip_tail_getD :
    ∀ (bs : List α) (j : ℕ), j + 1 < bs.length →
      (bs.zip bs.tail).getD j (0, 0) = (bs.getD j 0, bs.getD (j + 1) 0) := by
  intro bs
  induction bs with
  | nil => intro j h; simp at h
  | cons x xs ih =>
    intro j h
    cases xs with
    | nil => simp at h
    | cons y ys =>
      cases j with
      | zero => simp
      | succ j => simpa using ih j (by simpa using h)

lemma zip_tail_length (bs : List α) : (bs.zip bs.tail).length = bs.length - 1 := by
  cases bs with
  | nil => simp
  | cons x xs => simp [List.length_zip]

/-- Non-strict index monotonicity of `getD` along a strictly increasing list. -/
lemma chain_getD_le (bs : List α) (hch : List.Chain' (· < ·) bs) :
    ∀ i j : ℕ, i ≤ j → j < bs.length → bs.getD i 0 ≤ bs.getD j 0 := by
  intro i j hij hj
  rcases eq_or_lt_of_le hij with rfl | hlt
  · exact le_rfl
  · have hp := List.chain'_iff_pairwise.mp hch
    have hi : i < bs.length := lt_trans hlt hj
    have hR := List.pairwise_iff_getElem.mp hp i j hi hj hlt
    rw [List.getD_eq_getElem?_getD, List.getD_eq_getElem?_getD,
      List.getElem?_eq_getElem hi, List.getElem?_eq_getElem hj]
    exact le_of_lt hR

/-- Every element of a strictly increasing list is at most its last entry. -/
lemma chain_getD_le_last (bs : List α) (hch : List.Chain' (· < ·) bs) (L : α)
    (hlast : bs.getLast? = some L) :
    ∀ i, i < bs.length → bs.getD i 0 ≤ L := by
  intro i hi
  have hne : bs ≠ [] := by rintro rfl; simp at hlast
  have hlen : bs.length - 1 < bs.length := by
    cases bs with
    | nil => simp at hne
    | cons x xs => simp
  have hL : bs.getD (bs.length - 1) 0 = L := by
    rw [List.getLast?_eq_getElem?] at hlast
    rw [List.getD_eq_getElem?_getD, hlast]
    rfl
  calc bs.getD i 0 ≤ bs.getD (bs.length - 1) 0 :=
        chain_getD_le bs hch i (bs.length - 1) (by omega) hlen
    _ = L := hL

/-- At most one consecutive boundary pair contains a given value. -/
lemma band_index_unique (bs : List α) (hch : List.Chain' (· < ·) bs) (d : α)
    (i j : ℕ) (hi : i + 1 < bs.length) (hj : j + 1 < bs.length)
    (h1 : bs.getD i 0 ≤ d) (h2 : d < bs.getD (i + 1) 0)
    (h3 : bs.getD j 0 ≤ d) (h4 : d < bs.getD (j + 1) 0) : i = j := by
  by_contra hne
  rcases Nat.lt_or_ge i j with hlt | hge
  · have : bs.getD (i + 1) 0 ≤ bs.getD j 0 :=
      chain_getD_le bs hch (i + 1) j hlt (by omega)
    linarith
  · have hlt : j < i := by omega
    have : bs.getD (j + 1) 0 ≤ bs.getD i 0 :=
      chain_getD_le bs hch (j + 1) i hlt (by omega)
    linarith

/-- Interval coverage: if `a ≤ d` and `d` is below the last entry, some
consecutive pair of `a :: bs` contains `d` (no ordering needed). -/
lemma cover_exists (d : α) :
    ∀ (bs : List α) (a : α), a ≤ d → d < bs.getLastD a →
      ∃ i, i + 1 < (a :: bs).length ∧ (a :: bs).getD i 0 ≤ d ∧
        d < (a :: bs).getD (i + 1) 0 := by
  intro bs
  induction bs with
  | nil =>
    intro a ha hd
    simp only [List.getLastD_nil] at hd
    exact absurd hd (not_lt.mpr ha)
  | cons b rest ih =>
    intro a ha hd
    by_cases hb : d < b
    · exact ⟨0, by simp, by simpa using ha, by simpa using hb⟩
    · rw [List.getLastD_cons] at hd
      obtain ⟨i, hlen, h1, h2⟩ := ih b (not_lt.mp hb) hd
      exact ⟨i + 1, by simpa using hlen, by simpa using h1, by simpa using h2⟩

/-! ## Ring assignment lemmas -/

/-- Any in-radius distance gets a ring: the scan result lies below
`ringCount`, and otherwise the `dist <= radiusKm` fallback fires with index
`ringCount - 1`.  Holds for any boundary list with at least two entries. -/
lemma ringIdxFor_mem (bs : List α) (radiusKm d : α) (hlen : 2 ≤ bs.length)
    (hd : d ≤ radiusKm) :
    0 ≤ ringIdxFor bs radiusKm d ∧
      (ringIdxFor bs radiusKm d).toNat < bs.length - 1 := by
  unfold ringIdxFor
  cases hscan : scanPairs d (bs.zip bs.tail) with
  | none =>
    simp only [if_pos hd]
    omega
  | some r =>
    have hr := (scanPairs_some_spec d _ r hscan).1
    rw [zip_tail_length] at hr
    simp only []
    omega

/-- For `0 ≤ d < radiusKm` against the generated boundaries, the chosen ring
is the unique `i` with `bounds[i] ≤ d < bounds[i+1]`. -/
lemma ringIdxFor_spec_lt [FloorRing α] (radiusKm d : α) (h0 : 0 < radiusKm)
    (hd0 : 0 ≤ d) (hdR : d < radiusKm) :
    ∃ i : ℕ,
      ringIdxFor (generateRingBoundaries radiusKm) radiusKm d = (i : ℤ) ∧
      i + 1 < (generateRingBoundaries radiusKm).length ∧
      (generateRingBoundaries radiusKm).getD i 0 ≤ d ∧
      d < (generateRingBoundaries radiusKm).getD (i + 1) 0 ∧
      ∀ j, j + 1 < (generateRingBoundaries radiusKm).length →
        (generateRingBoundaries radiusKm).getD j 0 ≤ d →
        d < (generateRingBoundaries radiusKm).getD (j + 1) 0 → j = i := by
  obtain ⟨hgen, hchain, hhead, hlast, hlen⟩ := generateRingBoundaries_spec radiusKm h0
  set bs := generateRingBoundaries radiusKm with hbs
  -- coverage of [0, radiusKm) by the consecutive pairs of bs
  have hLD : bs.getLastD 0 = radiusKm := by
    rw [List.getLastD_eq_getLast?, hlast]; rfl
  obtain ⟨i0, hi0len, hi0lo, hi0hi⟩ : ∃ i, i + 1 < bs.length ∧
      bs.getD i 0 ≤ d ∧ d < bs.getD (i + 1) 0 := by
    rcases hq : bs with _ | ⟨x, xs⟩
    · rw [hq] at hlen; simp at hlen
    · have hx : x = 0 := by
        have := hhead; rw [hq] at this; simpa using this
      have hlastx : xs.getLastD x = radiusKm := by
        have := hLD; rw [hq, List.getLastD_cons] at this; exact this
      obtain ⟨i, h1, h2, h3⟩ :=
        cover_exists d xs x (by rw [hx]; exact hd0) (by rw [hlastx]; exact hdR)
      exact ⟨i, h1, h2, h3⟩
  -- the linear scan finds a (necessarily the same) pair
  obtain ⟨j, hj⟩ : ∃ j, scanPairs d (bs.zip bs.tail) = some j := by
    apply scanPairs_isSome_of_exists
    refine ⟨i0, ?_, ?_⟩
    · rw [zip_tail_length]; omega
    · rw [zip_tail_getD bs i0 hi0len]
      exact ⟨hi0lo, hi0hi⟩
  obtain ⟨hjlen, hjlo, hjhi⟩ := scanPairs_some_spec d _ j hj
  rw [zip_tail_length] at hjlen
  rw [zip_tail_getD bs j (by omega)] at hjlo hjhi
  refine ⟨j, ?_, by omega, hjlo, hjhi, ?_⟩
  · unfold ringIdxFor
    rw [hj]
  · intro k hk h1 h2
    exact band_index_unique bs hchain d k j hk (by omega) h1 h2 hjlo hjhi

/-- A sample exactly at the radius falls through the scan and is assigned to
the last ring by the closed-interval fallback. -/
lemma ringIdxFor_at_limit [FloorRing α] (radiusKm : α) (h0 : 0 < radiusKm) :
    ringIdxFor (generateRingBoundaries radiusKm) radiusKm radiusKm =
      ((generateRingBoundaries radiusKm).length : ℤ) - 2 := by
  obtain ⟨hgen, hchain, hhead, hlast, hlen⟩ := generateRingBoundaries_spec radiusKm h0
  set bs := generateRingBoundaries radiusKm with hbs
  have hnone : scanPairs radiusKm (bs.zip bs.tail) = none := by
    apply scanPairs_none_of
    intro i hi
    rw [zip_tail_length] at hi
    rw [zip_tail_getD bs i (by omega)]
    rintro ⟨-, hup⟩
    have := chain_getD_le_last bs hchain radiusKm hlast (i + 1) (by omega)
    linarith
  unfold ringIdxFor
  simp only [hnone]
  rw [if_pos le_rfl]
  ring

/-! ## Spatial accumulator lemmas -/

lemma processPixel_skip_far (bs : List α) (radiusKm : α) (st : AccState α)
    (s : PixelSample α) (h : s.dist > radiusKm) :
    processPixel bs radiusKm st s = st := by
  simp [processPixel, h]

lemma processPixel_skip_bad (bs : List α) (radiusKm : α) (st : AccState α)
    (s : PixelSample α) (hfar : ¬ s.dist > radiusKm)
    (h : s.pop < 0 ∨ s.popNaN = true) :
    processPixel bs radiusKm st s = st := by
  simp [processPixel, hfar, h]

/-- A sample passing both filters always lands in a ring (the fallback
guarantees a non-negative index) and updates every accumulator. -/
lemma processPixel_kept (bs : List α) (radiusKm : α) (st : AccState α)
    (s : PixelSample α) (hlen : 2 ≤ bs.length) (hfar : ¬ s.dist > radiusKm)
    (hbad : ¬ (s.pop < 0 ∨ s.popNaN = true)) :
    processPixel bs radiusKm st s =
      let i := (ringIdxFor bs radiusKm s.dist).toNat
      let w := 1 / (mathMax s.dist MIN_DISTANCE_KM * mathMax s.dist MIN_DISTANCE_KM)
      { totalPop := st.totalPop + s.pop
        invSqSum := st.invSqSum + s.pop * w
        weightSum := st.weightSum + w
        pixels := st.pixels + 1
        ringPop := st.ringPop.set i (st.ringPop.getD i 0 + s.pop)
        ringInvSq := st.ringInvSq.set i (st.ringInvSq.getD i 0 + s.pop * w)
        ringArea := st.ringArea.set i (st.ringArea.getD i 0 + s.area) } := by
  have hmem := ringIdxFor_mem bs radiusKm s.dist hlen (not_lt.mp hfar)
  simp [processPixel, hfar, hbad, hmem.1]

/-- Claim C1, code evaluation: the spatial accumulator weights a single
sample at distance `1/2` km by `1/(r*r) = 4` whatever the query's exponent
is; the specified weight `1/r^exponent` at exponent 1 would be 2.
`accumulatePixels` has no exponent parameter at all because
`computePopulation` never reads `query.exponent`. -/
theorem C1_spatial_exponent_ignored :
    (accumulatePixels (generateRingBoundaries (2 : ℚ)) 2
        [⟨1 / 2, 1, 0, false⟩]).invSqSum = 4 ∧
      (4 : ℚ) ≠ 1 / mathMax (1 / 2 : ℚ) MIN_DISTANCE_KM ^ (1 : ℕ) := by
  constructor
  · norm_num [accumulatePixels, processPixel, initAccState, ringIdxFor, scanPairs,
      generateRingBoundaries, ringLoopF, ringStep, mathMin, mathMax, MIN_DISTANCE_KM]
  · norm_num [mathMax, MIN_DISTANCE_KM]

/-- Setting index `i` to its old value plus `x` adds `x` to the list sum. -/
lemma sum_set_getD (l : List α) (i : ℕ) (x : α) (h : i < l.length) :
    (l.set i (l.getD i 0 + x)).sum = l.sum + x := by
  induction l generalizing i with
  | nil => simp at h
  | cons a as ih =>
    cases i with
    | zero => simp [List.getD_cons_zero]; ring
    | succ i =>
      have hi : i < as.length := by simpa using h
      simp only [List.set_cons_succ, List.getD_cons_succ, List.sum_cons, ih i hi]
      ring

/-- Fold invariant: the per-ring arrays keep their length `ringCount`, and
their sums track `totalPop` / `invSqSum` exactly (no sample double-counted
or dropped once it passes the filters). -/
lemma accumulate_inv_aux (bs : List α) (radiusKm : α) (hlen : 2 ≤ bs.length) :
    ∀ (samples : List (PixelSample α)) (st : AccState α),
      st.ringPop.sum = st.totalPop → st.ringInvSq.sum = st.invSqSum →
      st.ringPop.length = bs.length - 1 → st.ringInvSq.length = bs.length - 1 →
      (samples.foldl (processPixel bs radiusKm) st).ringPop.sum =
          (samples.foldl (processPixel bs radiusKm) st).totalPop ∧
        (samples.foldl (processPixel bs radiusKm) st).ringInvSq.sum =
          (samples.foldl (processPixel bs radiusKm) st).invSqSum ∧
        (samples.foldl (processPixel bs radiusKm) st).ringPop.length = bs.length - 1 ∧
        (samples.foldl (processPixel bs radiusKm) st).ringInvSq.length = bs.length - 1 := by
  intro samples
  induction samples with
  | nil => intro st h1 h2 h3 h4; exact ⟨h1, h2, h3, h4⟩
  | cons s rest ih =>
    intro st h1 h2 h3 h4
    simp only [List.foldl_cons]
    by_cases hfar : s.dist > radiusKm
    · rw [processPixel_skip_far bs radiusKm st s hfar]
      exact ih st h1 h2 h3 h4
    by_cases hbad : s.pop < 0 ∨ s.popNaN = true
    · rw [processPixel_skip_bad bs radiusKm st s hfar hbad]
      exact ih st h1 h2 h3 h4
    rw [processPixel_kept bs radiusKm st s hlen hfar hbad]
    have hmem := ringIdxFor_mem bs radiusKm s.dist hlen (not_lt.mp hfar)
    apply ih
    · rw [sum_set_getD _ _ _ (by omega : (ringIdxFor bs radiusKm s.dist).toNat < st.ringPop.length), h1]
    · rw [sum_set_getD _ _ _ (by omega : (ringIdxFor bs radiusKm s.dist).toNat < st.ringInvSq.length), h2]
    · simpa using h3
    · simpa using h4

/-- Fold characterisation of the three scalar accumulators: each is the sum
over the samples of its per-sample increment, which is zero exactly for the
filtered-out samples. -/
lemma accumulate_sums (bs : List α) (radiusKm : α) (hlen : 2 ≤ bs.length) :
    ∀ (samples : List (PixelSample α)) (st : AccState α),
      (samples.foldl (processPixel bs radiusKm) st).totalPop =
          st.totalPop + (samples.map fun s =>
            if s.dist > radiusKm ∨ s.pop < 0 ∨ s.popNaN = true then 0 else s.pop).sum ∧
        (samples.foldl (processPixel bs radiusKm) st).invSqSum =
          st.invSqSum + (samples.map fun s =>
            if s.dist > radiusKm ∨ s.pop < 0 ∨ s.popNaN = true then 0
            else s.pop * (1 / (mathMax s.dist MIN_DISTANCE_KM *
              mathMax s.dist MIN_DISTANCE_KM))).sum ∧
        (samples.foldl (processPixel bs radiusKm) st).weightSum =
          st.weightSum + (samples.map fun s =>
            if s.dist > radiusKm ∨ s.pop < 0 ∨ s.popNaN = true then 0
            else 1 / (mathMax s.dist MIN_DISTANCE_KM *
              mathMax s.dist MIN_DISTANCE_KM)).sum := by
  intro samples
  induction samples with
  | nil => intro st; simp
  | cons s rest ih =>
    intro st
    simp only [List.foldl_cons, List.map_cons, List.sum_cons]
    by_cases hfar : s.dist > radiusKm
    · rw [processPixel_skip_far bs radiusKm st s hfar]
      obtain ⟨e1, e2, e3⟩ := ih st
      rw [e1, e2, e3]
      simp [hfar]
    by_cases hbad : s.pop < 0 ∨ s.popNaN = true
    · rw [processPixel_skip_bad bs radiusKm st s hfar hbad]
      obtain ⟨e1, e2, e3⟩ := ih st
      rw [e1, e2, e3]
      rcases hbad with hb | hb <;> simp [hfar, hb]
    rw [processPixel_kept bs radiusKm st s hlen hfar hbad]
    obtain ⟨e1, e2, e3⟩ := ih _
    rw [e1, e2, e3]
    have hnot : ¬ (s.dist > radiusKm ∨ s.pop < 0 ∨ s.popNaN = true) := by
      rintro (h | h)
      · exact hfar h
      · exact hbad h
    refine ⟨?_, ?_, ?_⟩ <;> rw [if_neg hnot] <;> ring

/-! ## Travel-time filter lemmas -/

lemma ttProcessCell_none (pow : α → α → α) (mode : TransportMode)
    (exponent maxTimeSec : α) (st : TTAcc α) (cell : TTCell α)
    (h : getTravelTime cell mode = none) :
    ttProcessCell pow mode exponent maxTimeSec st cell = st := by
  simp [ttProcessCell, h]

lemma ttProcessCell_over (pow : α → α → α) (mode : TransportMode)
    (exponent maxTimeSec : α) (st : TTAcc α) (cell : TTCell α) (t : α)
    (h : getTravelTime cell mode = some t) (hover : t > maxTimeSec) :
    ttProcessCell pow mode exponent maxTimeSec st cell = st := by
  simp [ttProcessCell, h, hover]

lemma ttProcessCell_kept (pow : α → α → α) (mode : TransportMode)
    (exponent maxTimeSec : α) (st : TTAcc α) (cell : TTCell α) (t : α)
    (h : getTravelTime cell mode = some t) (hin : ¬ t > maxTimeSec) :
    ttProcessCell pow mode exponent maxTimeSec st cell =
      { filtered := st.filtered ++
          [(cell, t, cell.pop * (1 / pow (mathMax t MIN_TIME_SEC) exponent))]
        rawSum := st.rawSum + cell.pop * (1 / pow (mathMax t MIN_TIME_SEC) exponent)
        weightSum := st.weightSum + 1 / pow (mathMax t MIN_TIME_SEC) exponent
        totalPopulation := st.totalPopulation + cell.pop } := by
  simp [ttProcessCell, h, hin]

/-- Fold characterisation of the filter pass: `filtered` collects exactly
the in-limit reachable cells in order, and the three scalars are the sums
of the per-cell increments. -/
lemma ttFold_spec (pow : α → α → α) (mode : TransportMode)
    (exponent maxTimeSec : α) :
    ∀ (cells : List (TTCell α)) (st : TTAcc α),
      (cells.foldl (ttProcessCell pow mode exponent maxTimeSec) st).filtered =
          st.filtered ++ cells.filterMap (fun c =>
            match getTravelTime c mode with
            | none => none
            | some t =>
              if t > maxTimeSec then none
              else some (c, t, c.pop * (1 / pow (mathMax t MIN_TIME_SEC) exponent))) ∧
        (cells.foldl (ttProcessCell pow mode exponent maxTimeSec) st).rawSum =
          st.rawSum + (cells.map fun c =>
            match getTravelTime c mode with
            | none => 0
            | some t =>
              if t > maxTimeSec then 0
              else c.pop * (1 / pow (mathMax t MIN_TIME_SEC) exponent)).sum ∧
        (cells.foldl (ttProcessCell pow mode exponent maxTimeSec) st).weightSum =
          st.weightSum + (cells.map fun c =>
            match getTravelTime c mode with
            | none => 0
            | some t =>
              if t > maxTimeSec then 0
              else 1 / pow (mathMax t MIN_TIME_SEC) exponent).sum ∧
        (cells.foldl (ttProcessCell pow mode exponent maxTimeSec) st).totalPopulation =
          st.totalPopulation + (cells.map fun c =>
            match getTravelTime c mode with
            | none => 0
            | some t => if t > maxTimeSec then 0 else c.pop).sum := by
  intro cells
  induction cells with
  | nil => intro st; simp
  | cons c rest ih =>
    intro st
    simp only [List.foldl_cons, List.filterMap_cons, List.map_cons, List.sum_cons]
    cases hgt : getTravelTime c mode with
    | none =>
      rw [ttProcessCell_none pow mode exponent maxTimeSec st c hgt]
      obtain ⟨e1, e2, e3, e4⟩ := ih st
      rw [e1, e2, e3, e4]
      simp [hgt]
    | some t =>
      by_cases hover : t > maxTimeSec
      · rw [ttProcessCell_over pow mode exponent maxTimeSec st c t hgt hover]
        obtain ⟨e1, e2, e3, e4⟩ := ih st
        rw [e1, e2, e3, e4]
        simp [hgt, hover]
      · rw [ttProcessCell_kept pow mode exponent maxTimeSec st c t hgt hover]
        obtain ⟨e1, e2, e3, e4⟩ := ih _
        rw [e1, e2, e3, e4]
        simp only [hgt, if_neg hover]
        refine ⟨by simp, by ring, by ring, by ring⟩

/-- Band-pass conservation: when every filtered entry is claimed by some
band index inside the list, the band population / contribution sums grow by
exactly the filtered totals, and the band list keeps its length. -/
lemma ttApplyBands_sums :
    ∀ (fl : List (TTCell α × α × α)) (bands : List (TimeBand α)),
      (∀ e ∈ fl, ∃ i, ttBandFor (e.2.1 / 60) = some i ∧ i < bands.length) →
      ((ttApplyBands bands fl).map (fun b => b.population)).sum =
          ((bands.map (fun b => b.population)).sum + (fl.map (fun e => e.1.pop)).sum) ∧
        ((ttApplyBands bands fl).map (fun b => b.weightedContribution)).sum =
          ((bands.map (fun b => b.weightedContribution)).sum +
            (fl.map (fun e => e.2.2)).sum) ∧
        (ttApplyBands bands fl).length = bands.length := by
  intro fl
  induction fl with
  | nil => intro bands _; simp [ttApplyBands]
  | cons e rest ih =>
    intro bands hcl
    obtain ⟨i, hi, hilen⟩ := hcl e (by simp)
    have hstep : ttApplyBands bands (e :: rest) =
        ttApplyBands
          (bands.set i
            { bands.getD i ⟨0, 0, 0, 0, 0⟩ with
              population := (bands.getD i ⟨0, 0, 0, 0, 0⟩).population + e.1.pop
              weightedContribution :=
                (bands.getD i ⟨0, 0, 0, 0, 0⟩).weightedContribution + e.2.2
              cellCount := (bands.getD i ⟨0, 0, 0, 0, 0⟩).cellCount + 1 }) rest := by
      simp [ttApplyBands, hi]
    rw [hstep]
    set b' : TimeBand α :=
      { bands.getD i ⟨0, 0, 0, 0, 0⟩ with
        population := (bands.getD i ⟨0, 0, 0, 0, 0⟩).population + e.1.pop
        weightedContribution :=
          (bands.getD i ⟨0, 0, 0, 0, 0⟩).weightedContribution + e.2.2
        cellCount := (bands.getD i ⟨0, 0, 0, 0, 0⟩).cellCount + 1 } with hb'
    obtain ⟨f1, f2, f3⟩ := ih (bands.set i b') (by
      intro e' he'
      obtain ⟨j, hj, hjlen⟩ := hcl e' (by simp [he'])
      exact ⟨j, hj, by simpa using hjlen⟩)
    rw [f1, f2, f3]
    have hpopset : ((bands.set i b').map (fun b => b.population)).sum =
        (bands.map (fun b => b.population)).sum + e.1.pop := by
      rw [List.map_set]
      have hD : (bands.map (fun b => b.population)).getD i 0 =
          (bands.getD i ⟨0, 0, 0, 0, 0⟩).population := by
        rw [List.getD_eq_getElem?_getD, List.getD_eq_getElem?_getD,
          List.getElem?_eq_getElem hilen,
          List.getElem?_eq_getElem (by simpa using hilen :
            i < (bands.map (fun b => b.population)).length)]
        simp
      have : b'.population =
          (bands.map (fun b => b.population)).getD i 0 + e.1.pop := by
        rw [hD, hb']
      rw [this, sum_set_getD _ _ _ (by simpa using hilen)]
    have hwcset : ((bands.set i b').map (fun b => b.weightedContribution)).sum =
        (bands.map (fun b => b.weightedContribution)).sum + e.2.2 := by
      rw [List.map_set]
      have hD : (bands.map (fun b => b.weightedContribution)).getD i 0 =
          (bands.getD i ⟨0, 0, 0, 0, 0⟩).weightedContribution := by
        rw [List.getD_eq_getElem?_getD, List.getD_eq_getElem?_getD,
          List.getElem?_eq_getElem hilen,
          List.getElem?_eq_getElem (by simpa using hilen :
            i < (bands.map (fun b => b.weightedContribution)).length)]
        simp
      have : b'.weightedContribution =
          (bands.map (fun b => b.weightedContribution)).getD i 0 + e.2.2 := by
        rw [hD, hb']
      rw [this, sum_set_getD _ _ _ (by simpa using hilen)]
    rw [hpopset, hwcset]
    simp only [List.map_cons, List.sum_cons, List.length_set]
    refine ⟨by ring, by ring, by simp⟩

/-! ## Time band lookup lemmas -/

/-- The fixed time bands are the consecutive pairs of the boundary list
`[0, 15, 30, 45, 60, 90, 120, 180]`. -/
lemma TIME_BAND_RANGES_eq_zip :
    (TIME_BAND_RANGES : List (α × α)) =
      ([0, 15, 30, 45, 60, 90, 120, 180] : List α).zip
        ([0, 15, 30, 45, 60, 90, 120, 180] : List α).tail := rfl

lemma timeBounds_chain :
    List.Chain' (· < ·) ([0, 15, 30, 45, 60, 90, 120, 180] : List α) := by
  norm_num [List.chain'_cons]

/-- Any `timeMin` in `[0, 180)` is claimed by exactly one fixed band, and
`ttBandFor` finds it. -/
lemma ttBandFor_covers (m : α) (h0 : 0 ≤ m) (h180 : m < 180) :
    ∃ i, ttBandFor m = some i ∧ i < 7 ∧
      (TIME_BAND_RANGES.getD i ((0 : α), 0)).1 ≤ m ∧
      m < (TIME_BAND_RANGES.getD i ((0 : α), 0)).2 ∧
      ∀ j, j < 7 → (TIME_BAND_RANGES.getD j ((0 : α), 0)).1 ≤ m →
        m < (TIME_BAND_RANGES.getD j ((0 : α), 0)).2 → j = i := by
  set tb : List α := [0, 15, 30, 45, 60, 90, 120, 180] with htb
  have hlen : tb.length = 8 := by rw [htb]; rfl
  have hch : List.Chain' (· < ·) tb := timeBounds_chain
  have hcover : ∃ i, i + 1 < tb.length ∧ tb.getD i 0 ≤ m ∧ m < tb.getD (i + 1) 0 := by
    obtain ⟨i, h1, h2, h3⟩ :=
      cover_exists m ([15, 30, 45, 60, 90, 120, 180] : List α) 0 h0 (by simpa using h180)
    exact ⟨i, by simpa [htb] using h1, by simpa [htb] using h2, by simpa [htb] using h3⟩
  obtain ⟨i0, hi0, hlo0, hhi0⟩ := hcover
  obtain ⟨j, hj⟩ : ∃ j, scanPairs m (tb.zip tb.tail) = some j := by
    apply scanPairs_isSome_of_exists
    refine ⟨i0, ?_, ?_⟩
    · rw [zip_tail_length]; omega
    · rw [zip_tail_getD tb i0 hi0]; exact ⟨hlo0, hhi0⟩
  obtain ⟨hjlen, hjlo, hjhi⟩ := scanPairs_some_spec m _ j hj
  rw [zip_tail_length, hlen] at hjlen
  rw [zip_tail_getD tb j (by omega)] at hjlo hjhi
  have hzip : ttBandFor m = scanPairs m (tb.zip tb.tail) := by
    rw [ttBandFor, TIME_BAND_RANGES_eq_zip, htb]
  refine ⟨j, by rw [hzip, hj], by omega, ?_, ?_, ?_⟩
  · rw [TIME_BAND_RANGES_eq_zip, zip_tail_getD tb j (by omega)]; exact hjlo
  · rw [TIME_BAND_RANGES_eq_zip, zip_tail_getD tb j (by omega)]; exact hjhi
  · intro k hk h1 h2
    rw [TIME_BAND_RANGES_eq_zip, zip_tail_getD tb k (by omega)] at h1 h2
    exact band_index_unique tb hch m k j (by omega) (by omega) h1 h2 hjlo hjhi

/-- A `timeMin` at or beyond 180 (in particular exactly at a 180-minute
limit) is claimed by no band: there is no closed-interval exception in the
travel-time band loop. -/
lemma ttBandFor_none_of_ge (m : α) (h : 180 ≤ m) : ttBandFor m = none := by
  apply scanPairs_none_of
  intro i hi
  have hi7 : i < 7 := by
    simpa [TIME_BAND_RANGES] using hi
  interval_cases i <;>
    simp only [TIME_BAND_RANGES, List.getD_cons_zero, List.getD_cons_succ] <;>
    rintro ⟨-, hm⟩ <;> linarith

/-- Projection sums over the filtered entries agree with the per-cell
increment sums of the fold characterisation. -/
lemma ttFiltered_proj_sums (pow : α → α → α) (mode : TransportMode)
    (exponent maxTimeSec : α) :
    ∀ cells : List (TTCell α),
      (((cells.filterMap (fun c =>
          match getTravelTime c mode with
          | none => none
          | some t =>
            if t > maxTimeSec then none
            else some (c, t, c.pop * (1 / pow (mathMax t MIN_TIME_SEC) exponent)))).map
            (fun e => e.1.pop)).sum =
        (cells.map fun c =>
          match getTravelTime c mode with
          | none => 0
          | some t => if t > maxTimeSec then 0 else c.pop).sum) ∧
      (((cells.filterMap (fun c =>
          match getTravelTime c mode with
          | none => none
          | some t =>
            if t > maxTimeSec then none
            else some (c, t, c.pop * (1 / pow (mathMax t MIN_TIME_SEC) exponent)))).map
            (fun e => e.2.2)).sum =
        (cells.map fun c =>
          match getTravelTime c mode with
          | none => 0
          | some t =>
            if t > maxTimeSec then 0
            else c.pop * (1 / pow (mathMax t MIN_TIME_SEC) exponent)).sum) := by
  intro cells
  induction cells with
  | nil => simp
  | cons c rest ih =>
    simp only [List.filterMap_cons, List.map_cons, List.sum_cons]
    cases hgt : getTravelTime c mode with
    | none => simpa [hgt] using ih
    | some t =>
      by_cases hover : t > maxTimeSec
      · simpa [hgt, hover] using ih
      · simp only [hgt, if_neg hover, List.map_cons, List.sum_cons]
        exact ⟨by rw [ih.1], by rw [ih.2]⟩

/-- Claim C2, counterexample: a single cell taking exactly 180 minutes with
`maxTimeMin = 180` passes the inclusion filter (`time <= maxTimeSec`), so
`totalPopulation = 7`, yet the band populations sum to 0 — the sample is
dropped from the band breakdown. -/
theorem C2_counterexample :
    (((computeResults qpow .driving 1 180
          [⟨0, 0, 7, some 10800, none⟩]).timeBands.map
        (fun b => b.population)).sum = 0 ∧
      (computeResults qpow .driving 1 180
          [⟨0, 0, 7, some 10800, none⟩]).totalPopulation = 7) ∧
      (0 : ℚ) ≠ 7 := by
  refine ⟨⟨?_, ?_⟩, by norm_num⟩ <;>
    norm_num [computeResults, ttFilterPass, ttProcessCell, getTravelTime,
      ttApplyBands, ttBandFor, scanPairs, initTimeBands, TIME_BAND_RANGES,
      mathMax, MIN_TIME_SEC, qpow]

/-- Claim C2, amended: conservation holds on the internal (unrounded)
accumulators — in the spatial accumulator for any sample set, and in the
travel-time filter whenever every included cell's time is within
`[0, 10800)` seconds (`timeMin ∈ [0, 180)`); a cell at or beyond the last
fixed band bound (in particular exactly at a 180-minute limit) is counted
in the totals but in no band. -/
theorem C2_conservation_amended [FloorRing α] :
    (∀ (radiusKm : α) (samples : List (PixelSample α)), 0 < radiusKm →
      (accumulatePixels (generateRingBoundaries radiusKm) radiusKm
            samples).ringPop.sum =
          (accumulatePixels (generateRingBoundaries radiusKm) radiusKm
            samples).totalPop ∧
        (accumulatePixels (generateRingBoundaries radiusKm) radiusKm
            samples).ringInvSq.sum =
          (accumulatePixels (generateRingBoundaries radiusKm) radiusKm
            samples).invSqSum) ∧
    (∀ (pow : α → α → α) (mode : TransportMode) (exponent maxTimeMin : α)
        (cells : List (TTCell α)),
      (∀ c ∈ cells, ∀ t, getTravelTime c mode = some t →
        t ≤ maxTimeMin * 60 → 0 ≤ t ∧ t < 10800) →
      ((computeResults pow mode exponent maxTimeMin cells).timeBands.map
            (fun b => b.population)).sum =
          (computeResults pow mode exponent maxTimeMin cells).totalPopulation ∧
        ((computeResults pow mode exponent maxTimeMin cells).timeBands.map
            (fun b => b.weightedContribution)).sum =
          (ttFilterPass pow mode exponent maxTimeMin cells).rawSum) := by
  constructor
  · intro radiusKm samples h0
    obtain ⟨-, -, -, -, hlen⟩ := generateRingBoundaries_spec radiusKm h0
    have := accumulate_inv_aux (generateRingBoundaries radiusKm) radiusKm hlen
      samples (initAccState ((generateRingBoundaries radiusKm).length - 1))
      (by simp [initAccState]) (by simp [initAccState])
      (by simp [initAccState]) (by simp [initAccState])
    exact ⟨this.1, this.2.1⟩
  · intro pow mode exponent maxTimeMin cells hcells
    obtain ⟨hf, hr, hw, hp⟩ :=
      ttFold_spec pow mode exponent (maxTimeMin * 60) cells ⟨[], 0, 0, 0⟩
    have hpass : ttFilterPass pow mode exponent maxTimeMin cells =
        cells.foldl (ttProcessCell pow mode exponent (maxTimeMin * 60))
          ⟨[], 0, 0, 0⟩ := rfl
    have hinitlen : (initTimeBands (α := α)).length = 7 := by
      simp [initTimeBands, TIME_BAND_RANGES]
    have hclaim : ∀ e ∈ (ttFilterPass pow mode exponent maxTimeMin cells).filtered,
        ∃ i, ttBandFor (e.2.1 / 60) = some i ∧ i < (initTimeBands (α := α)).length := by
      intro e he
      rw [hpass, hf] at he
      simp only [List.nil_append] at he
      rw [List.mem_filterMap] at he
      obtain ⟨c, hc, hce⟩ := he
      rcases hq : getTravelTime c mode with _ | t
      · simp only [hq] at hce
        exact absurd hce (by simp)
      · simp only [hq] at hce
        by_cases hover : t > maxTimeMin * 60
        · rw [if_pos hover] at hce; simp at hce
        · rw [if_neg hover] at hce
          simp only [Option.some.injEq] at hce
          obtain ⟨ht0, ht1⟩ := hcells c hc t hq (not_lt.mp hover)
          have hm0 : (0 : α) ≤ t / 60 := by positivity
          have hm1 : t / 60 < 180 := by
            rw [div_lt_iff (by norm_num : (0 : α) < 60)]
            linarith
          obtain ⟨i, hbi, hi7, -⟩ := ttBandFor_covers (t / 60) hm0 hm1
          refine ⟨i, ?_, by omega⟩
          rw [← hce]
          exact hbi
    obtain ⟨s1, s2, s3⟩ := ttApplyBands_sums
      (ttFilterPass pow mode exponent maxTimeMin cells).filtered
      (initTimeBands (α := α)) hclaim
    have hbands : (computeResults pow mode exponent maxTimeMin cells).timeBands =
        ttApplyBands initTimeBands
          (ttFilterPass pow mode exponent maxTimeMin cells).filtered := rfl
    have htp : (computeResults pow mode exponent maxTimeMin cells).totalPopulation =
        (ttFilterPass pow mode exponent maxTimeMin cells).totalPopulation := rfl
    have hinitpop : ((initTimeBands (α := α)).map (fun b => b.population)).sum = 0 := by
      simp [initTimeBands, TIME_BAND_RANGES]
    have hinitwc :
        ((initTimeBands (α := α)).map (fun b => b.weightedContribution)).sum = 0 := by
      simp [initTimeBands, TIME_BAND_RANGES]
    obtain ⟨p1, p2⟩ := ttFiltered_proj_sums pow mode exponent (maxTimeMin * 60) cells
    have hflpop :
        (((ttFilterPass pow mode exponent maxTimeMin cells).filtered).map
          (fun e => e.1.pop)).sum =
        (ttFilterPass pow mode exponent maxTimeMin cells).totalPopulation := by
      rw [hpass, hf, hp]
      simp only [List.nil_append]
      rw [p1]
      ring
    have hflwc :
        (((ttFilterPass pow mode exponent maxTimeMin cells).filtered).map
          (fun e => e.2.2)).sum =
        (ttFilterPass pow mode exponent maxTimeMin cells).rawSum := by
      rw [hpass, hf, hr]
      simp only [List.nil_append]
      rw [p2]
      ring
    constructor
    · rw [hbands, htp, s1, hinitpop, hflpop]
      ring
    · rw [hbands, s2, hinitwc, hflwc]
      ring

/-- Witness for the amended C2 at `ℚ`: radius 2 with one spatial sample, and
a one-cell travel-time query (driving time 600 s, limit 60 min). -/
theorem C2_conservation_amended_witness :
    (0 : ℚ) < 2 ∧
      ((accumulatePixels (generateRingBoundaries (2 : ℚ)) 2
            [⟨1, 3, 0, false⟩]).ringPop.sum =
          (accumulatePixels (generateRingBoundaries (2 : ℚ)) 2
            [⟨1, 3, 0, false⟩]).totalPop ∧
        (accumulatePixels (generateRingBoundaries (2 : ℚ)) 2
            [⟨1, 3, 0, false⟩]).ringInvSq.sum =
          (accumulatePixels (generateRingBoundaries (2 : ℚ)) 2
            [⟨1, 3, 0, false⟩]).invSqSum) ∧
      (∀ c ∈ ([⟨0, 0, 7, some 600, none⟩] : List (TTCell ℚ)), ∀ t,
        getTravelTime c .driving = some t → t ≤ 60 * 60 → 0 ≤ t ∧ t < 10800) ∧
      (((computeResults qpow .driving 1 60
            [⟨0, 0, 7, some 600, none⟩]).timeBands.map
          (fun b => b.population)).sum =
        (computeResults qpow .driving 1 60
            [⟨0, 0, 7, some 600, none⟩]).totalPopulation ∧
        ((computeResults qpow .driving 1 60
              [⟨0, 0, 7, some 600, none⟩]).timeBands.map
            (fun b => b.weightedContribution)).sum =
          (ttFilterPass qpow .driving 1 60 [⟨0, 0, 7, some 600, none⟩]).rawSum) := by
  have hyp : ∀ c ∈ ([⟨0, 0, 7, some 600, none⟩] : List (TTCell ℚ)), ∀ t,
      getTravelTime c .driving = some t → t ≤ 60 * 60 → 0 ≤ t ∧ t < 10800 := by
    intro c hc t ht hle
    simp only [List.mem_singleton] at hc
    subst hc
    simp only [getTravelTime, Option.some.injEq] at ht
    subst ht
    norm_num
  exact ⟨by norm_num,
    C2_conservation_amended.1 2 [⟨1, 3, 0, false⟩] (by norm_num),
    hyp,
    C2_conservation_amended.2 qpow .driving 1 60 [⟨0, 0, 7, some 600, none⟩] hyp⟩

/-- Claim C3, counterexample: a travel-time cell taking exactly the
180-minute limit is included (`totalReachable = 1`) but no band claims it —
every band's `cellCount` stays 0, so "exactly one band claims it" fails in
the travel-time filter. -/
theorem C3_counterexample :
    (computeResults qpow .driving 1 180
        [⟨0, 0, 5, some 10800, none⟩]).totalReachable = 1 ∧
      ((computeResults qpow .driving 1 180
          [⟨0, 0, 5, some 10800, none⟩]).timeBands.map
        (fun b => b.cellCount)).sum = 0 := by
  constructor <;>
    norm_num [computeResults, ttFilterPass, ttProcessCell, getTravelTime,
      ttApplyBands, ttBandFor, scanPairs, initTimeBands, TIME_BAND_RANGES,
      mathMax, MIN_TIME_SEC, qpow]

/-- Claim C3, amended: in the spatial accumulator a sample with
`0 ≤ d ≤ radius` is claimed by exactly one ring — the unique `i` with
`bounds[i] ≤ d < bounds[i+1]` when `d < radius`, and the last ring when
`d = radius` (the closed-interval exception).  In the travel-time filter the
fixed bands follow the pure half-open rule with **no** last-band exception:
a `timeMin` in `[0, 180)` is claimed by exactly one band, and a `timeMin` at
or beyond 180 (in particular a cell exactly at a 180-minute limit) by none. -/
theorem C3_band_assignment_amended [FloorRing α] :
    (∀ (radiusKm d : α), 0 < radiusKm → 0 ≤ d → d < radiusKm →
      ∃ i : ℕ,
        ringIdxFor (generateRingBoundaries radiusKm) radiusKm d = (i : ℤ) ∧
        i + 1 < (generateRingBoundaries radiusKm).length ∧
        (generateRingBoundaries radiusKm).getD i 0 ≤ d ∧
        d < (generateRingBoundaries radiusKm).getD (i + 1) 0 ∧
        ∀ j, j + 1 < (generateRingBoundaries radiusKm).length →
          (generateRingBoundaries radiusKm).getD j 0 ≤ d →
          d < (generateRingBoundaries radiusKm).getD (j + 1) 0 → j = i) ∧
    (∀ radiusKm : α, 0 < radiusKm →
      ringIdxFor (generateRingBoundaries radiusKm) radiusKm radiusKm =
        ((generateRingBoundaries radiusKm).length : ℤ) - 2) ∧
    (∀ m : α, 0 ≤ m → m < 180 →
      ∃ i, ttBandFor m = some i ∧ i < 7 ∧
        (TIME_BAND_RANGES.getD i ((0 : α), 0)).1 ≤ m ∧
        m < (TIME_BAND_RANGES.getD i ((0 : α), 0)).2 ∧
        ∀ j, j < 7 → (TIME_BAND_RANGES.getD j ((0 : α), 0)).1 ≤ m →
          m < (TIME_BAND_RANGES.getD j ((0 : α), 0)).2 → j = i) ∧
    (∀ m : α, 180 ≤ m → ttBandFor m = none) :=
  ⟨fun radiusKm d h0 hd0 hdR => ringIdxFor_spec_lt radiusKm d h0 hd0 hdR,
   fun radiusKm h0 => ringIdxFor_at_limit radiusKm h0,
   fun m h0 h180 => ttBandFor_covers m h0 h180,
   fun m h => ttBandFor_none_of_ge m h⟩

/-- Witness for the amended C3 at `ℚ`: radius 2 with `d = 3/2` and
`d = 2 = radius`; `timeMin = 100` and `timeMin = 180`. -/
theorem C3_band_assignment_amended_witness :
    ((0 : ℚ) < 2 ∧ (0 : ℚ) ≤ 3 / 2 ∧ (3 / 2 : ℚ) < 2 ∧ (0 : ℚ) ≤ 100 ∧
      (100 : ℚ) < 180 ∧ (180 : ℚ) ≤ 180) ∧
      (∃ i : ℕ,
        ringIdxFor (generateRingBoundaries (2 : ℚ)) 2 (3 / 2) = (i : ℤ) ∧
        i + 1 < (generateRingBoundaries (2 : ℚ)).length ∧
        (generateRingBoundaries (2 : ℚ)).getD i 0 ≤ 3 / 2 ∧
        (3 / 2 : ℚ) < (generateRingBoundaries (2 : ℚ)).getD (i + 1) 0 ∧
        ∀ j, j + 1 < (generateRingBoundaries (2 : ℚ)).length →
          (generateRingBoundaries (2 : ℚ)).getD j 0 ≤ 3 / 2 →
          (3 / 2 : ℚ) < (generateRingBoundaries (2 : ℚ)).getD (j + 1) 0 → j = i) ∧
      ringIdxFor (generateRingBoundaries (2 : ℚ)) 2 2 =
        ((generateRingBoundaries (2 : ℚ)).length : ℤ) - 2 ∧
      (∃ i, ttBandFor (100 : ℚ) = some i ∧ i < 7 ∧
        (TIME_BAND_RANGES.getD i ((0 : ℚ), 0)).1 ≤ 100 ∧
        (100 : ℚ) < (TIME_BAND_RANGES.getD i ((0 : ℚ), 0)).2 ∧
        ∀ j, j < 7 → (TIME_BAND_RANGES.getD j ((0 : ℚ), 0)).1 ≤ 100 →
          (100 : ℚ) < (TIME_BAND_RANGES.getD j ((0 : ℚ), 0)).2 → j = i) ∧
      ttBandFor (180 : ℚ) = none :=
  ⟨by norm_num,
   C3_band_assignment_amended.1 2 (3 / 2) (by norm_num) (by norm_num) (by norm_num),
   C3_band_assignment_amended.2.1 2 (by norm_num),
   C3_band_assignment_amended.2.2.1 100 (by norm_num) (by norm_num),
   C3_band_assignment_amended.2.2.2 180 (by norm_num)⟩

/-! ## Weight-mass accumulation (C10) -/

/-- Claim C10: every sample that passes the exclusion filters adds its
weight to the total weight mass regardless of its population — the
`weightSum` increment is `1/max(d, minClamp)^exponent` (with the spatial
exponent fixed at 2 by the code) and does not mention `pop`, so a
zero-population cell still contributes and the normalized gravity is an
average over all in-range valid cells. -/
theorem C10_weight_mass_all_cells [FloorRing α] :
    (∀ (radiusKm : α) (samples : List (PixelSample α)) (s : PixelSample α),
      0 < radiusKm → ¬ s.dist > radiusKm → ¬ (s.pop < 0 ∨ s.popNaN = true) →
      (accumulatePixels (generateRingBoundaries radiusKm) radiusKm
          (samples ++ [s])).weightSum =
        (accumulatePixels (generateRingBoundaries radiusKm) radiusKm
            samples).weightSum +
          1 / (mathMax s.dist MIN_DISTANCE_KM * mathMax s.dist MIN_DISTANCE_KM)) ∧
    (∀ (mode : TransportMode) (exponent maxTimeMin : ℝ) (cells : List (TTCell ℝ))
        (c : TTCell ℝ) (t : ℝ),
      getTravelTime c mode = some t → ¬ t > maxTimeMin * 60 →
      (ttFilterPass rpowFn mode exponent maxTimeMin (cells ++ [c])).weightSum =
        (ttFilterPass rpowFn mode exponent maxTimeMin cells).weightSum +
          1 / mathMax t MIN_TIME_SEC ^ exponent) := by
  constructor
  · intro radiusKm samples s h0 hfar hbad
    obtain ⟨-, -, -, -, hlen⟩ := generateRingBoundaries_spec radiusKm h0
    have happ : accumulatePixels (generateRingBoundaries radiusKm) radiusKm
        (samples ++ [s]) =
        processPixel (generateRingBoundaries radiusKm) radiusKm
          (accumulatePixels (generateRingBoundaries radiusKm) radiusKm samples) s := by
      simp [accumulatePixels, List.foldl_append]
    rw [happ, processPixel_kept (generateRingBoundaries radiusKm) radiusKm _ s
      hlen hfar hbad]
  · intro mode exponent maxTimeMin cells c t hq hin
    have happ : ttFilterPass rpowFn mode exponent maxTimeMin (cells ++ [c]) =
        ttProcessCell rpowFn mode exponent (maxTimeMin * 60)
          (ttFilterPass rpowFn mode exponent maxTimeMin cells) c := by
      simp [ttFilterPass, List.foldl_append]
    rw [happ, ttProcessCell_kept rpowFn mode exponent (maxTimeMin * 60) _ c t hq hin]
    simp [rpowFn]

/-- Witness for C10: a zero-population spatial sample at distance 1 km
(radius 2), and a zero-population travel-time cell at 120 s (limit 60 min,
exponent 2). -/
theorem C10_weight_mass_all_cells_witness :
    ((0 : ℚ) < 2 ∧
      ¬ (⟨1, 0, 0, false⟩ : PixelSample ℚ).dist > 2 ∧
      ¬ ((⟨1, 0, 0, false⟩ : PixelSample ℚ).pop < 0 ∨
          (⟨1, 0, 0, false⟩ : PixelSample ℚ).popNaN = true) ∧
      (accumulatePixels (generateRingBoundaries (2 : ℚ)) 2
          ([] ++ [⟨1, 0, 0, false⟩])).weightSum =
        (accumulatePixels (generateRingBoundaries (2 : ℚ)) 2 []).weightSum +
          1 / (mathMax (⟨1, 0, 0, false⟩ : PixelSample ℚ).dist MIN_DISTANCE_KM *
            mathMax (⟨1, 0, 0, false⟩ : PixelSample ℚ).dist MIN_DISTANCE_KM)) ∧
    (getTravelTime (⟨0, 0, 0, some 120, none⟩ : TTCell ℝ) .driving = some 120 ∧
      ¬ (120 : ℝ) > 60 * 60 ∧
      (ttFilterPass rpowFn .driving 2 60
          ([] ++ [(⟨0, 0, 0, some 120, none⟩ : TTCell ℝ)])).weightSum =
        (ttFilterPass rpowFn .driving 2 60 ([] : List (TTCell ℝ))).weightSum +
          1 / mathMax (120 : ℝ) MIN_TIME_SEC ^ (2 : ℝ)) := by
  refine ⟨⟨by norm_num, by norm_num, by simp, ?_⟩, ⟨rfl, by norm_num, ?_⟩⟩
  · exact (C10_weight_mass_all_cells (α := ℚ)).1 2 [] ⟨1, 0, 0, false⟩ (by norm_num)
      (by norm_num) (by simp)
  · exact (C10_weight_mass_all_cells (α := ℚ)).2 .driving 2 60 [] ⟨0, 0, 0, some 120, none⟩
      120 rfl (by norm_num)

/-! ## Empty-window behaviour (C7) -/

lemma replicate_getD_zero : ∀ (n i : ℕ), (List.replicate n (0 : α)).getD i 0 = 0 := by
  intro n
  induction n with
  | zero => intro i; simp
  | succ n ih =>
    intro i
    cases i with
    | zero => simp [List.replicate]
    | succ i => simpa [List.replicate] using ih i

/-- An empty pixel window produces no samples. -/
lemma windowSamples_empty (g : RasterGeom) (dist : ℚ → ℚ → ℚ)
    (data : ℤ → ℤ → ℚ × Bool) (w : ℤ × ℤ × ℤ × ℤ)
    (h : w.2.1 < w.1 ∨ w.2.2.2 < w.2.2.1) :
    windowSamples g dist data w = [] := by
  obtain ⟨col0, col1, row0, row1⟩ := w
  rcases h with h | h
  · have hc : (col1 + 1 - col0).toNat = 0 := by
      simp only [] at h
      omega
    simp [windowSamples, hc]
  · have hr : (row1 + 1 - row0).toNat = 0 := by
      simp only [] at h
      omega
    simp [windowSamples, hr]

/-- Helper: the clamped window of a query box lying at least one pixel
beyond the raster's east edge is inverted (`window[0] > window[2]`), so the
modelled `readRasters` rejects it and the error propagates. -/
lemma invertedWindow_error (g : RasterGeom) (dist : ℚ → ℚ → ℚ)
    (data : ℤ → ℤ → ℚ × Bool) (minLng minLat maxLng maxLat radiusKm : ℚ)
    (hres : 0 < g.resX)
    (hout : ((g.width : ℚ) + 1) * g.resX ≤ minLng - g.originX) :
    computePopulationModel g dist data minLng minLat maxLng maxLat radiusKm =
      Except.error ReadError.invalidSubsets := by
  have hfloor : (g.width : ℤ) + 1 ≤ ⌊(minLng - g.originX) / g.resX⌋ := by
    rw [Int.le_floor]
    rw [le_div_iff hres]
    push_cast
    linarith
  have hw1 : (g.width : ℤ) + 1 ≤ (pixelWindow g minLng minLat maxLng maxLat).1 := by
    show (g.width : ℤ) + 1 ≤ mathMax 0 ⌊(minLng - g.originX) / g.resX⌋
    rw [mathMax_eq]
    exact le_trans hfloor (le_max_right _ _)
  have hw2 : (pixelWindow g minLng minLat maxLng maxLat).2.1 ≤ (g.width : ℤ) - 1 := by
    show mathMin ((g.width : ℤ) - 1) ⌈(maxLng - g.originX) / g.resX⌉ ≤ _
    rw [mathMin_eq]
    exact min_le_left _ _
  have hinv : (pixelWindow g minLng minLat maxLng maxLat).1 >
      (pixelWindow g minLng minLat maxLng maxLat).2.1 + 1 := by omega
  simp only [computePopulationModel]
  rw [if_pos (Or.inl hinv)]

/-- Helper: a zero-size but non-inverted window passes the read check and
yields the zero-initialised accumulators’ report. -/
lemma emptyValidWindow_ok (g : RasterGeom) (dist : ℚ → ℚ → ℚ)
    (data : ℤ → ℤ → ℚ × Bool) (minLng minLat maxLng maxLat radiusKm : ℚ)
    (hvalid : ¬ ((pixelWindow g minLng minLat maxLng maxLat).1 >
        (pixelWindow g minLng minLat maxLng maxLat).2.1 + 1 ∨
      (pixelWindow g minLng minLat maxLng maxLat).2.2.1 >
        (pixelWindow g minLng minLat maxLng maxLat).2.2.2 + 1))
    (hempty : (pixelWindow g minLng minLat maxLng maxLat).2.1 <
        (pixelWindow g minLng minLat maxLng maxLat).1 ∨
      (pixelWindow g minLng minLat maxLng maxLat).2.2.2 <
        (pixelWindow g minLng minLat maxLng maxLat).2.2.1) :
    computePopulationModel g dist data minLng minLat maxLng maxLat radiusKm =
      Except.ok (buildPopulationResult (generateRingBoundaries radiusKm)
        (initAccState ((generateRingBoundaries radiusKm).length - 1))) := by
  have hsamples : windowSamples g dist data
      (pixelWindow g minLng minLat maxLng maxLat) = [] :=
    windowSamples_empty g dist data _ hempty
  simp only [computePopulationModel]
  rw [if_neg hvalid, hsamples]
  rfl

/-- Helper: the report built from the zero-initialised accumulators has
zero totals, zero pixels, and `boundaries.length - 1` all-zero bands. -/
lemma zeroState_report (ringBounds : List ℚ) :
    (buildPopulationResult ringBounds
        (initAccState (ringBounds.length - 1))).totalPopulation = 0 ∧
      (buildPopulationResult ringBounds
        (initAccState (ringBounds.length - 1))).pixelsProcessed = 0 ∧
      (buildPopulationResult ringBounds
          (initAccState (ringBounds.length - 1))).rings.length =
        ringBounds.length - 1 ∧
      ∀ r ∈ (buildPopulationResult ringBounds
        (initAccState (ringBounds.length - 1))).rings, r.population = 0 := by
  refine ⟨by simp [buildPopulationResult, initAccState], ?_, ?_, ?_⟩
  · simp [buildPopulationResult, initAccState]
  · simp [buildPopulationResult, buildRings]
  · intro r hr
    simp only [buildPopulationResult, buildRings, List.mem_map,
      List.mem_range] at hr
    obtain ⟨i, -, hri⟩ := hr
    rw [← hri]
    simp [initAccState, replicate_getD_zero]

/-- Claim C7, amended: an out-of-extent query box does **not** generally
give a zero result.  A box at least one pixel beyond the raster’s east
edge clamps to an inverted window, which the geotiff `readRasters` rejects
(`Invalid subsets`) — `computePopulation` propagates that error.  Only when
the clamped window is zero-size but not inverted (box within one pixel of
the edge) does the read succeed with no pixels, and then the result has
`totalPopulation = 0` and `pixelsProcessed = 0` — but the band list is
still **not** empty: it has `ringCount = boundaries.length - 1` all-zero
bands. -/
theorem C7_outside_box_amended :
    (∀ (g : RasterGeom) (dist : ℚ → ℚ → ℚ) (data : ℤ → ℤ → ℚ × Bool)
        (minLng minLat maxLng maxLat radiusKm : ℚ),
      0 < g.resX → ((g.width : ℚ) + 1) * g.resX ≤ minLng - g.originX →
      computePopulationModel g dist data minLng minLat maxLng maxLat radiusKm =
        Except.error ReadError.invalidSubsets) ∧
    (∀ (g : RasterGeom) (dist : ℚ → ℚ → ℚ) (data : ℤ → ℤ → ℚ × Bool)
        (minLng minLat maxLng maxLat radiusKm : ℚ),
      ¬ ((pixelWindow g minLng minLat maxLng maxLat).1 >
          (pixelWindow g minLng minLat maxLng maxLat).2.1 + 1 ∨
        (pixelWindow g minLng minLat maxLng maxLat).2.2.1 >
          (pixelWindow g minLng minLat maxLng maxLat).2.2.2 + 1) →
      ((pixelWindow g minLng minLat maxLng maxLat).2.1 <
          (pixelWindow g minLng minLat maxLng maxLat).1 ∨
        (pixelWindow g minLng minLat maxLng maxLat).2.2.2 <
          (pixelWindow g minLng minLat maxLng maxLat).2.2.1) →
      computePopulationModel g dist data minLng minLat maxLng maxLat radiusKm =
        Except.ok (buildPopulationResult (generateRingBoundaries radiusKm)
          (initAccState ((generateRingBoundaries radiusKm).length - 1))) ∧
      (buildPopulationResult (generateRingBoundaries radiusKm)
          (initAccState ((generateRingBoundaries radiusKm).length - 1))).totalPopulation = 0 ∧
      (buildPopulationResult (generateRingBoundaries radiusKm)
          (initAccState ((generateRingBoundaries radiusKm).length - 1))).pixelsProcessed = 0 ∧
      (buildPopulationResult (generateRingBoundaries radiusKm)
          (initAccState ((generateRingBoundaries radiusKm).length - 1))).rings.length =
        (generateRingBoundaries radiusKm).length - 1 ∧
      ∀ r ∈ (buildPopulationResult (generateRingBoundaries radiusKm)
        (initAccState ((generateRingBoundaries radiusKm).length - 1))).rings,
        r.population = 0) := by
  constructor
  · intro g dist data minLng minLat maxLng maxLat radiusKm hres hout
    exact invertedWindow_error g dist data minLng minLat maxLng maxLat radiusKm
      hres hout
  · intro g dist data minLng minLat maxLng maxLat radiusKm hvalid hempty
    obtain ⟨z1, z2, z3, z4⟩ := zeroState_report (generateRingBoundaries radiusKm)
    exact ⟨emptyValidWindow_ok g dist data minLng minLat maxLng maxLat radiusKm
      hvalid hempty, z1, z2, z3, z4⟩

/-- Witness for the amended C7 on a 10×10 unit raster at the origin: a box
two pixels past the east edge errors; a box starting exactly at the east
edge (zero-size window) returns the zero result with 2 bands. -/
theorem C7_outside_box_amended_witness :
    ((0 : ℚ) < 1 ∧
      (((10 : ℕ) : ℚ) + 1) * 1 ≤ 22 - 0 ∧
      computePopulationModel ⟨0, 0, 1, -1, 10, 10⟩ (fun _ _ => 999)
          (fun _ _ => (5, false)) 22 (-4) 26 (-2) 2 =
        Except.error ReadError.invalidSubsets) ∧
    (¬ ((pixelWindow ⟨0, 0, 1, -1, 10, 10⟩ 10 (-4) 14 (-2)).1 >
          (pixelWindow ⟨0, 0, 1, -1, 10, 10⟩ 10 (-4) 14 (-2)).2.1 + 1 ∨
        (pixelWindow ⟨0, 0, 1, -1, 10, 10⟩ 10 (-4) 14 (-2)).2.2.1 >
          (pixelWindow ⟨0, 0, 1, -1, 10, 10⟩ 10 (-4) 14 (-2)).2.2.2 + 1) ∧
      ((pixelWindow ⟨0, 0, 1, -1, 10, 10⟩ 10 (-4) 14 (-2)).2.1 <
          (pixelWindow ⟨0, 0, 1, -1, 10, 10⟩ 10 (-4) 14 (-2)).1 ∨
        (pixelWindow ⟨0, 0, 1, -1, 10, 10⟩ 10 (-4) 14 (-2)).2.2.2 <
          (pixelWindow ⟨0, 0, 1, -1, 10, 10⟩ 10 (-4) 14 (-2)).2.2.1) ∧
      (computePopulationModel ⟨0, 0, 1, -1, 10, 10⟩ (fun _ _ => 999)
          (fun _ _ => (5, false)) 10 (-4) 14 (-2) 2 =
        Except.ok (buildPopulationResult (generateRingBoundaries (2 : ℚ))
          (initAccState ((generateRingBoundaries (2 : ℚ)).length - 1))) ∧
      (buildPopulationResult (generateRingBoundaries (2 : ℚ))
          (initAccState ((generateRingBoundaries (2 : ℚ)).length - 1))).totalPopulation = 0 ∧
      (buildPopulationResult (generateRingBoundaries (2 : ℚ))
          (initAccState ((generateRingBoundaries (2 : ℚ)).length - 1))).pixelsProcessed = 0 ∧
      (buildPopulationResult (generateRingBoundaries (2 : ℚ))
          (initAccState ((generateRingBoundaries (2 : ℚ)).length - 1))).rings.length =
        (generateRingBoundaries (2 : ℚ)).length - 1 ∧
      ∀ r ∈ (buildPopulationResult (generateRingBoundaries (2 : ℚ))
        (initAccState ((generateRingBoundaries (2 : ℚ)).length - 1))).rings,
        r.population = 0)) := by
  have hv : ¬ ((pixelWindow ⟨0, 0, 1, -1, 10, 10⟩ 10 (-4) 14 (-2)).1 >
      (pixelWindow ⟨0, 0, 1, -1, 10, 10⟩ 10 (-4) 14 (-2)).2.1 + 1 ∨
    (pixelWindow ⟨0, 0, 1, -1, 10, 10⟩ 10 (-4) 14 (-2)).2.2.1 >
      (pixelWindow ⟨0, 0, 1, -1, 10, 10⟩ 10 (-4) 14 (-2)).2.2.2 + 1) := by
    norm_num [pixelWindow, mathMin, mathMax]
  have he : (pixelWindow ⟨0, 0, 1, -1, 10, 10⟩ 10 (-4) 14 (-2)).2.1 <
      (pixelWindow ⟨0, 0, 1, -1, 10, 10⟩ 10 (-4) 14 (-2)).1 ∨
    (pixelWindow ⟨0, 0, 1, -1, 10, 10⟩ 10 (-4) 14 (-2)).2.2.2 <
      (pixelWindow ⟨0, 0, 1, -1, 10, 10⟩ 10 (-4) 14 (-2)).2.2.1 := by
    left
    norm_num [pixelWindow, mathMin, mathMax]
  exact ⟨⟨by norm_num, by norm_num,
    C7_outside_box_amended.1 ⟨0, 0, 1, -1, 10, 10⟩ (fun _ _ => 999)
      (fun _ _ => (5, false)) 22 (-4) 26 (-2) 2 (by norm_num) (by norm_num)⟩,
    hv, he,
    C7_outside_box_amended.2 ⟨0, 0, 1, -1, 10, 10⟩ (fun _ _ => 999)
      (fun _ _ => (5, false)) 10 (-4) 14 (-2) 2 hv he⟩

/-- Claim C7, counterexample: a query box entirely outside the raster (two
pixels past the east edge) makes the computation **error** (`Invalid
subsets` from the rejected inverted window) instead of returning a result;
and in the zero-size-window case that does succeed, the band list has 2
bands, not zero. -/
theorem C7_counterexample :
    computePopulationModel ⟨0, 0, 1, -1, 10, 10⟩ (fun _ _ => 999)
        (fun _ _ => (5, false)) 22 (-4) 26 (-2) 2 =
      Except.error ReadError.invalidSubsets ∧
    computePopulationModel ⟨0, 0, 1, -1, 10, 10⟩ (fun _ _ => 999)
        (fun _ _ => (5, false)) 10 (-4) 14 (-2) 2 =
      Except.ok (buildPopulationResult (generateRingBoundaries (2 : ℚ))
        (initAccState ((generateRingBoundaries (2 : ℚ)).length - 1))) ∧
    (buildPopulationResult (generateRingBoundaries (2 : ℚ))
        (initAccState ((generateRingBoundaries (2 : ℚ)).length - 1))).totalPopulation = 0 ∧
    (buildPopulationResult (generateRingBoundaries (2 : ℚ))
        (initAccState ((generateRingBoundaries (2 : ℚ)).length - 1))).rings.length = 2 ∧
    (2 : ℕ) ≠ 0 := by
  obtain ⟨z1, -, z3, -⟩ := zeroState_report (generateRingBoundaries (2 : ℚ))
  refine ⟨?_, ?_, z1, ?_, by norm_num⟩
  · exact invertedWindow_error ⟨0, 0, 1, -1, 10, 10⟩ (fun _ _ => 999)
      (fun _ _ => (5, false)) 22 (-4) 26 (-2) 2 (by norm_num) (by norm_num)
  · apply emptyValidWindow_ok
    · norm_num [pixelWindow, mathMin, mathMax]
    · left
      norm_num [pixelWindow, mathMin, mathMax]
  · rw [z3]
    norm_num [generateRingBoundaries, ringLoopF, ringStep, mathMin]

/-! ## Raster acquire state machine (C8) -/

/-- Claim C8: `getImage` behaves as a lazy-init-once machine.  While a
decode is in flight and nothing is cached, a concurrent call awaits that
same in-flight operation and changes nothing (never a second decode); after
a failure the in-flight slot is cleared and the next call starts a fresh
decode; once resolved, the handle is cached and every subsequent call
returns it unchanged without reopening. -/
theorem C8_acquire_state_machine :
    (∀ (s : RasterState) (p : ℕ), s.cached = none → s.inflight = some p →
      acquireStep s = (s, .awaiting p)) ∧
    (∀ s : RasterState,
      (rejectStep s).inflight = none ∧
      (s.cached = none →
        acquireStep (rejectStep s) =
          ({ rejectStep s with
              inflight := some s.nextOp, nextOp := s.nextOp + 1 },
            .started s.nextOp))) ∧
    (∀ (s : RasterState) (h : ℕ),
      (resolveStep s h).cached = some h ∧
      acquireStep (resolveStep s h) = (resolveStep s h, .hit h) ∧
      ∀ s' : RasterState, s'.cached = some h →
        acquireStep s' = (s', .hit h)) := by
  refine ⟨?_, ?_, ?_⟩
  · intro s p hc hi
    simp [acquireStep, hc, hi]
  · intro s
    refine ⟨rfl, fun hc => ?_⟩
    simp [acquireStep, rejectStep, hc]
  · intro s h
    refine ⟨rfl, by simp [acquireStep, resolveStep], fun s' hc => ?_⟩
    simp [acquireStep, hc]

/-- Witness for C8 at concrete states: in-flight op 5 with empty cache;
a rejected decode from that state; a resolve delivering handle 9. -/
theorem C8_acquire_state_machine_witness :
    ((⟨none, some 5, 6⟩ : RasterState).cached = none ∧
      (⟨none, some 5, 6⟩ : RasterState).inflight = some 5 ∧
      acquireStep ⟨none, some 5, 6⟩ = (⟨none, some 5, 6⟩, .awaiting 5)) ∧
    ((rejectStep ⟨none, some 5, 6⟩).inflight = none ∧
      acquireStep (rejectStep ⟨none, some 5, 6⟩) =
        ({ rejectStep (⟨none, some 5, 6⟩ : RasterState) with
            inflight := some 6, nextOp := 7 },
          .started 6)) ∧
    ((resolveStep ⟨none, some 5, 6⟩ 9).cached = some 9 ∧
      acquireStep (resolveStep ⟨none, some 5, 6⟩ 9) =
        (resolveStep ⟨none, some 5, 6⟩ 9, .hit 9)) := by
  refine ⟨⟨rfl, rfl, ?_⟩, ⟨?_, ?_⟩, ⟨?_, ?_⟩⟩
  · exact C8_acquire_state_machine.1 ⟨none, some 5, 6⟩ 5 rfl rfl
  · exact (C8_acquire_state_machine.2.1 ⟨none, some 5, 6⟩).1
  · exact (C8_acquire_state_machine.2.1 ⟨none, some 5, 6⟩).2 rfl
  · exact (C8_acquire_state_machine.2.2 ⟨none, some 5, 6⟩ 9).1
  · exact (C8_acquire_state_machine.2.2 ⟨none, some 5, 6⟩ 9).2.1

/-! ## FIFO read queue (C9) -/

/-- Invariant proof for the promise chain: starting from any fulfilled
queue tail, every queued read produces exactly one settled event, events
are serialized in FIFO order (`settle ≤` next `start`), each event spans
forward in time, every event starts no earlier than the tail, and each
call's outcome is its own read's outcome — an earlier failure neither
fails nor delays later reads. -/
lemma runReadQueue_spec :
    ∀ (reqs : List ReadReq) (q : SettledP), q.out = .ok →
      (runReadQueue q reqs).length = reqs.length ∧
      List.Chain' (fun a b => a.settle ≤ b.start) (runReadQueue q reqs) ∧
      ((runReadQueue q reqs).map (fun e => e.out) =
        reqs.map (fun r => if r.fails then POut.err else POut.ok)) ∧
      (∀ e ∈ runReadQueue q reqs, e.start ≤ e.settle) ∧
      (∀ e ∈ runReadQueue q reqs, q.time ≤ e.start) := by
  intro reqs
  induction reqs with
  | nil => intro q hq; simp [runReadQueue]
  | cons r rs ih =>
    intro q hq
    obtain ⟨qt, qo⟩ := q
    simp only [] at hq
    subst hq
    have hpt : promiseThen ⟨qt, POut.ok⟩ r.dur (if r.fails then POut.err else POut.ok) =
        ⟨qt + r.dur, if r.fails then POut.err else POut.ok⟩ := by
      simp [promiseThen]
    have hrun : runReadQueue ⟨qt, POut.ok⟩ (r :: rs) =
        ⟨qt, qt + r.dur, if r.fails then POut.err else POut.ok⟩ ::
          runReadQueue ⟨qt + r.dur, POut.ok⟩ rs := by
      simp [runReadQueue, hpt, swallowErr]
    obtain ⟨ihlen, ihchain, ihmap, ihspan, ihfrom⟩ :=
      ih ⟨qt + r.dur, POut.ok⟩ rfl
    rw [hrun]
    refine ⟨by simpa using ihlen, ?_, by simpa using ihmap, ?_, ?_⟩
    · rw [List.chain'_cons']
      refine ⟨?_, ihchain⟩
      intro h hh
      have hmem : h ∈ runReadQueue ⟨qt + r.dur, POut.ok⟩ rs :=
        List.mem_of_mem_head? hh
      exact ihfrom h hmem
    · intro e he
      rcases List.mem_cons.mp he with rfl | hmem
      · simp
      · exact ihspan e hmem
    · intro e he
      rcases List.mem_cons.mp he with rfl | hmem
      · simp
      · have h1 : qt + r.dur ≤ e.start := ihfrom e hmem
        show qt ≤ e.start
        omega

/-- Claim C9: all windowed reads funnel through one FIFO promise chain —
for any sequence of queued reads, call N+1 begins only after call N settled
(so at most one physical read is in flight), every queued call settles, and
each call's outcome is its own read's success or failure (one read failing
neither fails nor blocks the rest). -/
theorem C9_read_queue_fifo :
    ∀ reqs : List ReadReq,
      (readRastersExclusiveModel reqs).length = reqs.length ∧
      List.Chain' (fun a b => a.settle ≤ b.start)
        (readRastersExclusiveModel reqs) ∧
      ((readRastersExclusiveModel reqs).map (fun e => e.out) =
        reqs.map (fun r => if r.fails then POut.err else POut.ok)) ∧
      ∀ e ∈ readRastersExclusiveModel reqs, e.start ≤ e.settle := by
  intro reqs
  obtain ⟨h1, h2, h3, h4, -⟩ := runReadQueue_spec reqs ⟨0, POut.ok⟩ rfl
  exact ⟨h1, h2, h3, h4⟩

/-- Witness for C9: three queued reads, the middle one failing. -/
theorem C9_read_queue_fifo_witness :
    (readRastersExclusiveModel [⟨2, false⟩, ⟨3, true⟩, ⟨1, false⟩]).length = 3 ∧
      List.Chain' (fun a b => a.settle ≤ b.start)
        (readRastersExclusiveModel [⟨2, false⟩, ⟨3, true⟩, ⟨1, false⟩]) ∧
      ((readRastersExclusiveModel [⟨2, false⟩, ⟨3, true⟩, ⟨1, false⟩]).map
          (fun e => e.out) =
        [POut.ok, POut.err, POut.ok]) ∧
      ∀ e ∈ readRastersExclusiveModel [⟨2, false⟩, ⟨3, true⟩, ⟨1, false⟩],
        e.start ≤ e.settle := by
  obtain ⟨h1, h2, h3, h4⟩ :=
    C9_read_queue_fifo [⟨2, false⟩, ⟨3, true⟩, ⟨1, false⟩]
  exact ⟨h1, h2, by simpa using h3, h4⟩

/-! ## The synthetic 5×5 grid (C6) -/

lemma ringBounds_two_real : generateRingBoundaries (2 : ℝ) = [0, 1, 2] := by
  norm_num [generateRingBoundaries, ringLoopF, ringStep, mathMin]

/-- Accumulator values on the synthetic grid: total population 100, raw
gravity sum 100·(1/0.1²) = 10000, and weight mass
100 + 4·1 + 4·(1/2) + 4·(1/4) = 107 — the twelve in-range zero-population
cells contribute weight. -/
lemma syntheticGrid_accumulators :
    (accumulatePixels (generateRingBoundaries (2 : ℝ)) 2 syntheticGrid).totalPop
        = 100 ∧
      (accumulatePixels (generateRingBoundaries (2 : ℝ)) 2 syntheticGrid).invSqSum
        = 10000 ∧
      (accumulatePixels (generateRingBoundaries (2 : ℝ)) 2 syntheticGrid).weightSum
        = 107 := by
  have hlen : 2 ≤ (generateRingBoundaries (2 : ℝ)).length := by
    rw [ringBounds_two_real]; norm_num
  obtain ⟨e1, e2, e3⟩ := accumulate_sums (generateRingBoundaries (2 : ℝ)) 2 hlen
    syntheticGrid (initAccState ((generateRingBoundaries (2 : ℝ)).length - 1))
  have hacc : accumulatePixels (generateRingBoundaries (2 : ℝ)) 2 syntheticGrid =
      syntheticGrid.foldl (processPixel (generateRingBoundaries (2 : ℝ)) 2)
        (initAccState ((generateRingBoundaries (2 : ℝ)).length - 1)) := rfl
  have h4 : Real.sqrt 4 = 2 := by
    rw [show (4 : ℝ) = 2 ^ 2 by norm_num, Real.sqrt_sq (by norm_num : (0 : ℝ) ≤ 2)]
  have h8 : (2 : ℝ) < Real.sqrt 8 :=
    calc (2 : ℝ) = Real.sqrt 4 := h4.symm
      _ < Real.sqrt 8 := Real.sqrt_lt_sqrt (by norm_num) (by norm_num)
  have h5 : (2 : ℝ) < Real.sqrt 5 :=
    calc (2 : ℝ) = Real.sqrt 4 := h4.symm
      _ < Real.sqrt 5 := Real.sqrt_lt_sqrt (by norm_num) (by norm_num)
  have h2le : Real.sqrt 2 ≤ 2 :=
    calc Real.sqrt 2 ≤ Real.sqrt 4 := Real.sqrt_le_sqrt (by norm_num)
      _ = 2 := h4
  have h2gt : ¬ Real.sqrt 2 > 2 := not_lt.mpr h2le
  have hone : (1 : ℝ) ≤ Real.sqrt 2 :=
    calc (1 : ℝ) = Real.sqrt 1 := Real.sqrt_one.symm
      _ ≤ Real.sqrt 2 := Real.sqrt_le_sqrt (by norm_num)
  have h210 : ¬ (Real.sqrt 2 ≤ 1 / 10) := by
    push_neg
    calc (1 / 10 : ℝ) < 1 := by norm_num
      _ ≤ Real.sqrt 2 := hone
  have hmul2 : Real.sqrt 2 * Real.sqrt 2 = 2 :=
    Real.mul_self_sqrt (by norm_num)
  rw [hacc]
  refine ⟨?_, ?_, ?_⟩
  · rw [e1]
    simp only [syntheticGrid, gridCell, List.map_cons, List.map_nil,
      List.sum_cons, List.sum_nil, initAccState, ite_self]
    norm_num
  · rw [e2]
    simp only [syntheticGrid, gridCell, List.map_cons, List.map_nil,
      List.sum_cons, List.sum_nil, initAccState, zero_mul, ite_self]
    norm_num [mathMax, MIN_DISTANCE_KM]
  · rw [e3]
    simp only [syntheticGrid, gridCell, List.map_cons, List.map_nil,
      List.sum_cons, List.sum_nil, initAccState, MIN_DISTANCE_KM, mathMax,
      h8, h5, h2gt, h210, hmul2]
    norm_num

/-- Claim C6, counterexample: on the synthetic 5×5 grid the reported
normalized gravity is 93.46, not the claimed 100 — the denominator is the
weight mass 107 of all thirteen in-range cells (twelve of them with zero
population), not just the clamped centre cell's 1/0.01. -/
theorem C6_counterexample :
    (buildPopulationResult (generateRingBoundaries (2 : ℝ))
        (accumulatePixels (generateRingBoundaries (2 : ℝ)) 2
          syntheticGrid)).inverseSqNormalized = 9346 / 100 ∧
      (9346 / 100 : ℝ) ≠ 100 := by
  obtain ⟨h1, h2, h3⟩ := syntheticGrid_accumulators
  constructor
  · simp only [buildPopulationResult, h2, h3]
    rw [if_pos (by norm_num : (0 : ℝ) < 107)]
    norm_num [round_eq]
  · norm_num

/-- Claim C6, amended: the synthetic grid query reports
`totalPopulation = 100` and `rawGravitySum = 10000` as claimed, but the
normalized gravity is `round((10000/107)·100)/100 = 93.46`, because every
in-range valid cell — including the twelve zero-population ones at
distances 1, √2 and 2 — adds its weight (4·1 + 4·(1/2) + 4·(1/4) = 7) to
the weight mass alongside the centre's 100. -/
theorem C6_synthetic_grid_amended :
    (buildPopulationResult (generateRingBoundaries (2 : ℝ))
        (accumulatePixels (generateRingBoundaries (2 : ℝ)) 2
          syntheticGrid)).totalPopulation = 100 ∧
      (buildPopulationResult (generateRingBoundaries (2 : ℝ))
        (accumulatePixels (generateRingBoundaries (2 : ℝ)) 2
          syntheticGrid)).inverseSqSum = 10000 ∧
      (buildPopulationResult (generateRingBoundaries (2 : ℝ))
        (accumulatePixels (generateRingBoundaries (2 : ℝ)) 2
          syntheticGrid)).inverseSqNormalized = 9346 / 100 := by
  obtain ⟨h1, h2, h3⟩ := syntheticGrid_accumulators
  refine ⟨?_, ?_, ?_⟩
  · simp only [buildPopulationResult, h1]
    norm_num [round_eq]
  · simp only [buildPopulationResult, h2]
    norm_num [round_eq]
  · simp only [buildPopulationResult, h2, h3]
    rw [if_pos (by norm_num : (0 : ℝ) < 107)]
    norm_num [round_eq]

end PopSquared
